import Mathlib

/-!
Verification development for the Type-D-XL status core: a shallow embedding of
the SMBus poller / extended sampler / EEPROM reader ("EXP Src") and of the UDP
receiver ("src"), with theorems settling the frozen specification claims.

Conventions:
* machine bytes are `Nat` values < 256; machine words are `Nat` values < 2^16;
  C `int` values are `Int` (32-bit two's complement where serialization matters);
* fallible bus reads are `Option Nat` oracle inputs (`none` = transaction error);
* the family-1.6 temperature correction, computed with C `double`s in the source,
  is embedded over `ℚ`: for every raw byte 0..255 the double intermediate stays
  more than 0.04 away from the truncation boundary while the accumulated IEEE-754
  rounding error is below 1e-12, so the exact-rational value agrees with the
  source computation on every input (checked exhaustively).
-/

namespace TypeD

/-! ## Cache manager (cache_manager.cpp / cache_manager.h)

`XboxStatus` from `cache_manager.h`; the `currentApp` C string is modelled as
the list of its bytes before the terminating NUL. -/

structure XboxStatus where
  fanSpeed : Int
  cpuTemp : Int
  ambientTemp : Int
  currentApp : List Nat
  deriving Repr, DecidableEq

namespace Cache_Manager

/-- Cache_Manager::reset. -/
def reset (_c : XboxStatus) : XboxStatus :=
  { fanSpeed := -1, cpuTemp := -1000, ambientTemp := -1000, currentApp := [] }

/-- Cache_Manager::setFanSpeed: clamp the argument to 0..100 and store it. -/
def setFanSpeed (c : XboxStatus) (percent : Int) : XboxStatus :=
  let percent := if percent < 0 then 0 else percent
  let percent := if percent > 100 then 100 else percent
  { c with fanSpeed := percent }

/-- Cache_Manager::setCpuTemp: accept only 0 < celsius < 100. -/
def setCpuTemp (c : XboxStatus) (celsius : Int) : XboxStatus :=
  if celsius > 0 ∧ celsius < 100 then { c with cpuTemp := celsius } else c

/-- Cache_Manager::setAmbientTemp: accept only 0 < celsius < 100. -/
def setAmbientTemp (c : XboxStatus) (celsius : Int) : XboxStatus :=
  if celsius > 0 ∧ celsius < 100 then { c with ambientTemp := celsius } else c

/-- Cache_Manager::setCurrentApp: keep at most 31 bytes of a non-empty name. -/
def setCurrentApp (c : XboxStatus) (name : List Nat) : XboxStatus :=
  if name ≠ [] then { c with currentApp := name.take 31 } else c

end Cache_Manager

/-- XboxSMBusStatus from xbox_smbus_poll.h (fields used by the poller). -/
structure XboxSMBusStatus where
  cpuTemp : Int
  boardTemp : Int
  fanSpeed : Int
  deriving Repr, DecidableEq

/-- Cache_Manager::updateFromSmbus: push a polled struct through the setters. -/
def Cache_Manager.updateFromSmbus (c : XboxStatus) (st : XboxSMBusStatus) : XboxStatus :=
  Cache_Manager.setAmbientTemp
    (Cache_Manager.setCpuTemp (Cache_Manager.setFanSpeed c st.fanSpeed) st.cpuTemp)
    st.boardTemp

/-- Cache operations that mutate the cache (Cache_Manager public setters). -/
inductive CacheOp where
  | reset
  | setFanSpeed (p : Int)
  | setCpuTemp (v : Int)
  | setAmbientTemp (v : Int)
  | setCurrentApp (name : List Nat)
  | updateFromSmbus (st : XboxSMBusStatus)
  deriving Repr

/-- Apply one cache operation. -/
def CacheOp.apply (c : XboxStatus) : CacheOp → XboxStatus
  | .reset => Cache_Manager.reset c
  | .setFanSpeed p => Cache_Manager.setFanSpeed c p
  | .setCpuTemp v => Cache_Manager.setCpuTemp c v
  | .setAmbientTemp v => Cache_Manager.setAmbientTemp c v
  | .setCurrentApp n => Cache_Manager.setCurrentApp c n
  | .updateFromSmbus st => Cache_Manager.updateFromSmbus c st

/-- States of the cache reachable from `begin()` (which calls `reset`). -/
inductive CacheReachable : XboxStatus → Prop
  | init (c : XboxStatus) : CacheReachable (Cache_Manager.reset c)
  | step (c : XboxStatus) (op : CacheOp) :
      CacheReachable c → CacheReachable (op.apply c)

/-! ## Family-1.6 board-temperature correction (xbox_smbus_poll.cpp, poll case 1)

Source: `f = val*1.8+32; f *= 0.8; c = (f-32)/1.8; adj = (int)(c + (c>=0 ? 0.5
: -0.5));` then clamp to 0..120.  The `(int)` cast truncates toward zero. -/

/-- C `(int)` cast of a rational: truncation toward zero. -/
def truncInt (q : ℚ) : Int :=
  if 0 ≤ q then ⌊q⌋ else ⌈q⌉

/-- The 1.6 correction applied to a raw board-temperature byte. -/
def corr16 (val : Nat) : Int :=
  let f : ℚ := (val : ℚ) * 1.8 + 32.0
  let f := f * 0.8
  let c := (f - 32.0) / 1.8
  let adj := truncInt (c + (if 0 ≤ c then 0.5 else -0.5))
  let adj := if adj < 0 then 0 else adj
  if adj > 120 then 120 else adj

/-- Poller board-temperature step (poll, rr case 1): `none` if the read failed
or the raw byte fails the `val < 120` guard, otherwise the value written into
`status.boardTemp` (corrected when the 1.6 probe succeeded). -/
def pollBoardValue (read : Option Nat) (is16 : Bool) : Option Int :=
  match read with
  | none => none
  | some val =>
    if val < 120 then
      some (if is16 then corr16 val else (val : Int))
    else none

/-- Value accepted into the ambient-temperature cache on a board tick: the
poller's `status.boardTemp` value, filtered by `setAmbientTemp`'s range check. -/
def boardAcceptedValue (read : Option Nat) (is16 : Bool) : Option Int :=
  match pollBoardValue read is16 with
  | none => none
  | some v => if v > 0 ∧ v < 100 then some v else none

/-- Poller CPU-temperature step (poll, rr case 0) filtered by `setCpuTemp`. -/
def cpuAcceptedValue (read : Option Nat) : Option Int :=
  match read with
  | none => none
  | some val =>
    if val < 120 then
      if (val : Int) > 0 ∧ (val : Int) < 100 then some (val : Int) else none
    else none

/-! ## Receiver AV-pack heuristics and resolution formatter (udp_detect.cpp) -/

/-- C cast of an `int` to `uint8_t` (wrap modulo 256). -/
def toU8 (x : Int) : Nat :=
  (x % 256).toNat

/-- avIsPAL: SCART packs (primary table value 0, or even-nibble 0x0E). -/
def avIsPAL (avVal : Int) : Bool :=
  let v := toU8 avVal
  if v = 0x00 then true
  else if v &&& 0x0E = 0x0E then true
  else false

/-- avIsHDTV: explicit HDTV pack 0x01, or fallback nibble bucket 0x0A. -/
def avIsHDTV (avVal : Int) : Bool :=
  let v := toU8 avVal
  if v = 0x01 then true
  else if v &&& 0x0E = 0x0A then true
  else false

/-- approx: closed tolerance band around a target. -/
def approx (v target tol : Int) : Bool :=
  decide (v ≥ target - tol) && decide (v ≤ target + tol)

/-- formatResolution: pretty resolution string with tolerance-band mode match. -/
def formatResolution (w h avVal : Int) : String :=
  let isHDTV := avIsHDTV avVal
  if approx h 720 8 && approx w 1280 32 then
    toString w ++ "x" ++ toString h ++ " (720p)"
  else if approx h 1080 16 && approx w 1920 64 then
    toString w ++ "x" ++ toString h ++ " (1080i)"
  else if approx h 480 16 then
    toString w ++ "x" ++ toString h ++ " (" ++ (if isHDTV then "480p" else "480i") ++ ")"
  else if approx h 576 16 then
    toString w ++ "x" ++ toString h ++ " (" ++ (if isHDTV then "576p" else "576i") ++ ")"
  else if w > 0 ∧ h > 0 then
    toString w ++ "x" ++ toString h
  else
    "—"

/-! ## Extended status sampler (smbus_ext.cpp)

Bus transactions are modelled by an oracle recording the outcome of each read
the pass may issue (`none` = failed transaction).  Word reads deliver the
assembled 16-bit value exactly as the corresponding helper builds it. -/

/-- Outcomes of every bus read an extended-status pass may issue. -/
structure ExtOracle where
  lockOk : Bool
  trayRead : Option Nat
  avRead : Option Nat
  picRead : Option Nat
  verRead : Option Nat
  conexantProbe : Bool
  focusProbe : Bool
  xcalProbe : Bool
  conexant2E : Option Nat
  focusPidStop : Option Nat
  focusPidRS : Option Nat
  focusVc0Stop : Option Nat
  focusVc0RS : Option Nat
  focusWStop : Option Nat
  focusHStop : Option Nat
  focusWRS : Option Nat
  focusHRS : Option Nat
  focusNlStop : Option Nat
  focusNpStop : Option Nat
  focusNlRS : Option Nat
  focusNpRS : Option Nat
  xcalModeRead : Option Nat
  deriving Repr

/-- Persistent state of smbus_ext.cpp (pacing and one-shot caches). -/
structure ExtState where
  nextAllowedMs : Nat
  encoderKnown : Bool
  encoderCache : Int
  xcalModeKnown : Bool
  xcalModeCode : Int
  xcalNextProbeMs : Nat
  deriving Repr, DecidableEq

/-- The Expansion frame contents (SMBusExt::Status as filled by sendExtStatus). -/
structure ExtPacket where
  trayState : Int
  avPackState : Int
  picVer : Int
  xboxVer : Int
  videoWidth : Int
  videoHeight : Int
  encoderType : Int
  deriving Repr, DecidableEq

/-- Lock events issued by one extended-status pass. -/
inductive LockEv where
  | acq
  | rel
  deriving Repr, DecidableEq

/-- isPalFromAvPack (smbus_ext.cpp): SCART AV packs select PAL. -/
def isPalFromAvPack (avVal : Int) : Bool :=
  let v : Int := Int.land avVal 0xFF
  if v = 0x00 then true
  else if Int.land v 0x0E = 0x0E then true
  else false

/-- uint16_t byte swap `(x >> 8) | (x << 8)`. -/
def bswap16 (x : Nat) : Nat :=
  ((x >>> 8) ||| (x <<< 8)) &&& 0xFFFF

/-- The `in` lambda of getFocusResolutionOrFallback. -/
def inBand (v lo hi : Int) : Bool :=
  decide (lo ≤ v) && decide (v ≤ hi)

/-- Jitter used by sendExtStatus: `150 + ((now & 0xFF) % 250)`. -/
def extJitter (now : Nat) : Nat :=
  150 + (now &&& 0xFF) % 250

/-- SD fallback from the AV pack (xcalFallbackFromAv, also the tail of the
Conexant and Focus helpers). -/
def avFallback (avVal : Int) : Int × Int :=
  (720, if isPalFromAvPack avVal then 576 else 480)

/-- getConexantResolutionFromRegs: HDTV raster select at 0x2E, else SD fallback. -/
def getConexantResolutionFromRegs (o : ExtOracle) (avVal : Int) : Int × Int :=
  let wh : Int × Int :=
    match o.conexant2E with
    | some r2e =>
      if r2e &&& 0x80 ≠ 0 then
        match r2e &&& 0x03 with
        | 1 => (720, 480)
        | 2 => (1280, 720)
        | 3 => (1920, 1080)
        | _ => (-1, -1)
      else (-1, -1)
    | none => (-1, -1)
  if wh.1 ≤ 0 ∨ wh.2 ≤ 0 then avFallback avVal else wh

/-- The shared HD/SD band classifier used three times inside
getFocusResolutionOrFallback on an active-area (W, H) pair. -/
def focusBand (W H : Int) : Option (Int × Int) :=
  if inBand H 680 760 then some (1280, 720)
  else if inBand H 1030 1120 then some (1920, 1080)
  else if inBand H 460 510 then
    some (if inBand W 1180 1380 then (1280, 720) else (720, 480))
  else if inBand W 1180 1380 && inBand H 620 820 then some (1280, 720)
  else if inBand W 1840 1980 && inBand H 980 1140 then some (1920, 1080)
  else if inBand W 690 780 && inBand H 430 530 then some (720, 480)
  else none

/-- Decode the Focus VID_CNTL0 word: HDTV bit 12, INTERLACED bit 7. -/
def focusFromVc0 (vc0 : Nat) : Int × Int :=
  if vc0 &&& (1 <<< 12) ≠ 0 then
    if vc0 &&& (1 <<< 7) ≠ 0 then (1920, 1080) else (1280, 720)
  else (720, 480)

/-- Stage 3 of getFocusResolutionOrFallback: legacy SD line/pixel counters
(NL at 0x57, NP at 0x71), else the AV-pack guard. -/
def focusStage3 (o : ExtOracle) (avVal : Int) : Int × Int :=
  match o.focusNlRS, o.focusNpRS with
  | some nl, some np => (((np &&& 0x07FF : Nat) : Int), ((nl &&& 0x07FF : Nat) : Int))
  | _, _ =>
    match o.focusNlStop, o.focusNpStop with
    | some nl, some np => (((np &&& 0x07FF : Nat) : Int), ((nl &&& 0x07FF : Nat) : Int))
    | some nl, none =>
      let h : Int := ((bswap16 nl &&& 0x07FF : Nat) : Int)
      if (-1 : Int) > 0 ∧ h > 0 then (-1, h) else avFallback avVal
    | none, some np =>
      let w : Int := ((bswap16 np &&& 0x07FF : Nat) : Int)
      if w > 0 ∧ (-1 : Int) > 0 then (w, -1) else avFallback avVal
    | none, none => avFallback avVal

/-- Stage 2 of getFocusResolutionOrFallback: HDTV active window (HACT_WD,
VACT_HT), repeated-start pair first, then the STOP pair as-is and swapped. -/
def focusStage2 (o : ExtOracle) (avVal : Int) : Int × Int :=
  let viaRS : Option (Int × Int) :=
    match o.focusWRS, o.focusHRS with
    | some w, some h => focusBand ((w &&& 0x0FFF : Nat) : Int) ((h &&& 0x0FFF : Nat) : Int)
    | _, _ => none
  match viaRS with
  | some wh => wh
  | none =>
    let viaStop : Option (Int × Int) :=
      match o.focusWStop, o.focusHStop with
      | some w, some h =>
        match focusBand ((w &&& 0x0FFF : Nat) : Int) ((h &&& 0x0FFF : Nat) : Int) with
        | some wh => some wh
        | none =>
          focusBand ((bswap16 w &&& 0x0FFF : Nat) : Int) ((bswap16 h &&& 0x0FFF : Nat) : Int)
      | _, _ => none
    match viaStop with
    | some wh => wh
    | none => focusStage3 o avVal

/-- Stage 1 STOP variant of getFocusResolutionOrFallback: PID and VID_CNTL0
read with the STOP discipline, interpreted byte-swapped. -/
def focusStage1Stop (o : ExtOracle) (avVal : Int) : Int × Int :=
  match o.focusPidStop, o.focusVc0Stop with
  | some pid, some vc0 =>
    if bswap16 pid = 0xFE05 then focusFromVc0 (bswap16 vc0)
    else focusStage2 o avVal
  | _, _ => focusStage2 o avVal

/-- getFocusResolutionOrFallback: PID/VID_CNTL0 pair first, then the active-area
window pair, then the SD counters, then the AV-pack guard. -/
def getFocusResolutionOrFallback (o : ExtOracle) (avVal : Int) : Int × Int :=
  match o.focusPidRS, o.focusVc0RS with
  | some pid, some vc0 =>
    if pid = 0xFE05 then focusFromVc0 vc0 else focusStage1Stop o avVal
  | _, _ => focusStage1Stop o avVal

/-- detectEncoderOnce: probe Conexant, Focus, Xcalibur in priority order. -/
def detectEncoderOnce (o : ExtOracle) (st : ExtState) : ExtState :=
  if st.encoderKnown then st
  else
    let enc : Int :=
      if o.conexantProbe then 0x45
      else if o.focusProbe then 0x6A
      else if o.xcalProbe then 0x70
      else -1
    { st with encoderKnown := true, encoderCache := enc }

/-- maybeProbeXcalMode: rate-limited single-register probe of the Xcalibur
mode; a failed probe keeps the previous cache and stays unknown. -/
def maybeProbeXcalMode (o : ExtOracle) (now : Nat) (st : ExtState) : ExtState :=
  if now < st.xcalNextProbeMs then st
  else
    let st := { st with xcalNextProbeMs := now + 12000 }
    if st.encoderCache ≠ 0x70 then st
    else
      match o.xcalModeRead with
      | some val =>
        let code := val &&& 0x07
        { st with
          xcalModeCode := if code ≤ 5 then (code : Int) else -1,
          xcalModeKnown := true }
      | none => st

/-- xcalCodeToWH: fixed table from the 3-bit mode code. -/
def xcalCodeToWH (code : Nat) (avVal : Int) : Int × Int :=
  match code &&& 0x07 with
  | 0 => (720, 480)
  | 1 => (720, 480)
  | 2 => (720, 576)
  | 3 => (720, 576)
  | 4 => (1280, 720)
  | 5 => (1920, 1080)
  | _ => avFallback avVal

/-- smcValid of sendExtStatus step 3: the console-version read succeeded and
reported a byte in [0,6]. -/
def extSmcValid (o : ExtOracle) : Bool :=
  match o.verRead with
  | some b => decide (b ≤ 6)
  | none => false

/-- The console-version policy of sendExtStatus step 3: the firmware byte when
valid, else 6 for a detected Xcalibur encoder, else -1. -/
def extXboxVer (o : ExtOracle) (st : ExtState) : Int :=
  if extSmcValid o then
    match o.verRead with
    | some b => (b : Int)
    | none => -1
  else if (detectEncoderOnce o st).encoderCache = 0x70 then 6 else -1

/-- SMBusExt::sendExtStatus: one extended-status pass.  Returns the new state,
the Expansion frame sent (if any) and the lock events of the pass. -/
def sendExtStatus (o : ExtOracle) (now : Nat) (st : ExtState) :
    ExtState × Option ExtPacket × List LockEv :=
  -- 1) only one SMBus user at a time
  if ¬ o.lockOk then
    ({ st with nextAllowedMs := now + 4000 }, none, [])
  else
    -- 2) base SMC fields; if any fail, skip transmit and back off
    match o.trayRead, o.avRead, o.picRead with
    | some tray, some av, some pic =>
      -- 3) console version policy
      let xboxVer : Int := extXboxVer o st
      let st := if extSmcValid o then st else detectEncoderOnce o st
      -- 4) always broadcast encoder type if we know it
      let st := detectEncoderOnce o st
      -- 5) resolution (with safe Xcalibur mode probing on a timer)
      let (st, wh) :=
        if st.encoderCache = 0x45 then
          (st, getConexantResolutionFromRegs o (av : Int))
        else if st.encoderCache = 0x6A then
          (st, getFocusResolutionOrFallback o (av : Int))
        else if st.encoderCache = 0x70 then
          let st := maybeProbeXcalMode o now st
          if st.xcalModeKnown ∧ st.xcalModeCode ≥ 0 then
            (st, xcalCodeToWH st.xcalModeCode.toNat (av : Int))
          else
            (st, avFallback (av : Int))
        else
          (st, avFallback (av : Int))
      -- 6) broadcast packet, 7) schedule next tick and release lock
      let packet : ExtPacket :=
        { trayState := (tray : Int), avPackState := (av : Int), picVer := (pic : Int),
          xboxVer := xboxVer, videoWidth := wh.1, videoHeight := wh.2,
          encoderType := st.encoderCache }
      let period := if extSmcValid o then 4000 else 9000
      ({ st with nextAllowedMs := now + period + extJitter now }, some packet,
        [LockEv.acq, LockEv.rel])
    | _, _, _ =>
      ({ st with nextAllowedMs := now + 9000 + extJitter now }, none,
        [LockEv.acq, LockEv.rel])

/-! ## SHA-1 / HMAC-SHA1 (eeprom_min.cpp uses mbedTLS; modelled per FIPS 180)

Words are `Nat` values kept below 2^32 by explicit masking. -/

/-- 32-bit left rotation. -/
def rotl32 (n x : Nat) : Nat :=
  ((x <<< n) ||| (x >>> (32 - n))) &&& 0xFFFFFFFF

/-- Big-endian bytes of a 32-bit word. -/
def toBE32 (x : Nat) : List Nat :=
  [(x >>> 24) &&& 0xFF, (x >>> 16) &&& 0xFF, (x >>> 8) &&& 0xFF, x &&& 0xFF]

/-- Pack bytes into big-endian 32-bit words (length a multiple of 4). -/
def wordsBE : List Nat → List Nat
  | a :: b :: c :: d :: rest => (((a * 256 + b) * 256 + c) * 256 + d) :: wordsBE rest
  | _ => []

/-- SHA-1 padding: 0x80, zeros to 56 mod 64, 8-byte big-endian bit length. -/
def shaPad (msg : List Nat) : List Nat :=
  let bitLen := msg.length * 8
  let zeros := (119 - (msg.length % 64)) % 64
  msg ++ [0x80] ++ List.replicate zeros 0 ++
    [(bitLen >>> 56) &&& 0xFF, (bitLen >>> 48) &&& 0xFF, (bitLen >>> 40) &&& 0xFF,
     (bitLen >>> 32) &&& 0xFF, (bitLen >>> 24) &&& 0xFF, (bitLen >>> 16) &&& 0xFF,
     (bitLen >>> 8) &&& 0xFF, bitLen &&& 0xFF]

/-- SHA-1 round function. -/
def shaF (i b c d : Nat) : Nat :=
  if i < 20 then (b &&& c) ||| ((b ^^^ 0xFFFFFFFF) &&& d)
  else if i < 40 then b ^^^ c ^^^ d
  else if i < 60 then (b &&& c) ||| (b &&& d) ||| (c &&& d)
  else b ^^^ c ^^^ d

/-- SHA-1 round constants. -/
def shaK (i : Nat) : Nat :=
  if i < 20 then 0x5A827999
  else if i < 40 then 0x6ED9EBA1
  else if i < 60 then 0x8F1BBCDC
  else 0xCA62C1D6

/-- The 80-word message schedule from the 16 block words. -/
def shaSchedule (ws : List Nat) : List Nat :=
  (List.range 80).foldl
    (fun acc i =>
      if i < 16 then acc ++ [ws.getD i 0]
      else acc ++ [rotl32 1 (acc.getD (i - 3) 0 ^^^ acc.getD (i - 8) 0 ^^^
        acc.getD (i - 14) 0 ^^^ acc.getD (i - 16) 0)])
    []

/-- One SHA-1 block compression. -/
def shaCompress (h : Nat × Nat × Nat × Nat × Nat) (block : List Nat) :
    Nat × Nat × Nat × Nat × Nat :=
  let ws := shaSchedule (wordsBE block)
  let fin := (List.range 80).foldl
    (fun st i =>
      let t := (rotl32 5 st.1 + shaF i st.2.1 st.2.2.1 st.2.2.2.1 + st.2.2.2.2 +
        shaK i + ws.getD i 0) &&& 0xFFFFFFFF
      (t, st.1, rotl32 30 st.2.1, st.2.2.1, st.2.2.2.1))
    h
  ((h.1 + fin.1) &&& 0xFFFFFFFF, (h.2.1 + fin.2.1) &&& 0xFFFFFFFF,
   (h.2.2.1 + fin.2.2.1) &&& 0xFFFFFFFF, (h.2.2.2.1 + fin.2.2.2.1) &&& 0xFFFFFFFF,
   (h.2.2.2.2 + fin.2.2.2.2) &&& 0xFFFFFFFF)

/-- Fold the compression over `fuel` 64-byte blocks. -/
def shaBlocks : Nat → (Nat × Nat × Nat × Nat × Nat) → List Nat →
    Nat × Nat × Nat × Nat × Nat
  | 0, h, _ => h
  | n + 1, h, l => shaBlocks n (shaCompress h (l.take 64)) (l.drop 64)

/-- SHA-1 of a byte list (20 bytes out). -/
def sha1 (msg : List Nat) : List Nat :=
  let padded := shaPad msg
  let h := shaBlocks (padded.length / 64)
    (0x67452301, 0xEFCDAB89, 0x98BADCFE, 0x10325476, 0xC3D2E1F0) padded
  toBE32 h.1 ++ toBE32 h.2.1 ++ toBE32 h.2.2.1 ++ toBE32 h.2.2.2.1 ++ toBE32 h.2.2.2.2

/-- HMAC-SHA1 with the standard 64-byte block size. -/
def hmacSha1 (key msg : List Nat) : List Nat :=
  let key := if key.length > 64 then sha1 key else key
  let key := key ++ List.replicate (64 - key.length) 0
  sha1 ((key.map (fun b => b ^^^ 0x5C)) ++ sha1 ((key.map (fun b => b ^^^ 0x36)) ++ msg))

/-! ## RC4 (eeprom_min.cpp rc4_init / rc4_crypt) -/

/-- rc4_state: the 256-byte permutation plus the two stream indices. -/
structure Rc4State where
  S : List Nat
  i : Nat
  j : Nat
  deriving Repr, DecidableEq

/-- Swap two positions of a byte list. -/
def listSwap (l : List Nat) (a b : Nat) : List Nat :=
  let x := l.getD a 0
  let y := l.getD b 0
  (l.set a y).set b x

/-- rc4_init: key-scheduling over the identity permutation. -/
def rc4Init (key : List Nat) : Rc4State :=
  let fin := (List.range 256).foldl
    (fun (acc : List Nat × Nat) n =>
      let j := (acc.2 + acc.1.getD n 0 + key.getD (n % key.length) 0) % 256
      (listSwap acc.1 n j, j))
    (List.range 256, 0)
  { S := fin.1, i := 0, j := 0 }

/-- rc4_crypt keystream: `len` bytes from the given state. -/
def rc4Keystream (st : Rc4State) (len : Nat) : List Nat :=
  ((List.range len).foldl
    (fun (acc : Rc4State × List Nat) _ =>
      let st := acc.1
      let i := (st.i + 1) % 256
      let j := (st.j + st.S.getD i 0) % 256
      let S := listSwap st.S i j
      let K := S.getD ((S.getD i 0 + S.getD j 0) % 256) 0
      ({ S := S, i := i, j := j }, acc.2 ++ [K]))
    (st, [])).2

/-- rc4_crypt applied to the first `len` bytes of `buf` (the rest unchanged). -/
def rc4CryptPrefix (st : Rc4State) (buf : List Nat) (len : Nat) : List Nat :=
  let ks := rc4Keystream st len
  buf.mapIdx (fun idx b => if idx < len then b ^^^ ks.getD idx 0 else b)

/-! ## EEPROM key recovery (XboxEEPROM::broadcastOnce decrypt loop) -/

/-- nyb_to_hex: one uppercase hex digit. -/
def nybToHex (v : Nat) : Char :=
  let v := v &&& 0x0F
  if v < 10 then Char.ofNat (48 + v) else Char.ofNat (65 + (v - 10))

/-- toHexUpper: uppercase hex rendering of a byte list. -/
def toHexUpper (src : List Nat) : String :=
  String.mk (src.foldr (fun b acc => nybToHex (b >>> 4) :: nybToHex b :: acc) [])

/-- EEPROM_KEY_V10: published RC4 key for v1.0 consoles. -/
def EEPROM_KEY_V10 : List Nat :=
  [0x2A, 0x3B, 0xAD, 0x2C, 0xB1, 0x94, 0x4F, 0x93,
   0xAA, 0xCD, 0xCD, 0x7E, 0x0A, 0xC2, 0xEE, 0x5A]

/-- EEPROM_KEY_V11_14: published RC4 key for v1.1-1.4 consoles. -/
def EEPROM_KEY_V11_14 : List Nat :=
  [0x1D, 0xF3, 0x5C, 0x83, 0x8E, 0xC9, 0xB6, 0xFC,
   0xBD, 0xF6, 0x61, 0xAB, 0x4F, 0x06, 0x33, 0xE4]

/-- EEPROM_KEY_V16: published RC4 key for v1.6/1.6b consoles. -/
def EEPROM_KEY_V16 : List Nat :=
  [0x2B, 0x84, 0x57, 0xBE, 0x9B, 0x1E, 0x65, 0xC6,
   0xCD, 0x9D, 0x2B, 0xCE, 0xC1, 0xA2, 0x09, 0x61]

/-- The decrypt loop of broadcastOnce: candidate keys in order v1.0, v1.1-1.4,
v1.6; per key the RC4 key is HMAC-SHA1 of the candidate over the stored
20-byte checksum at offset 0; factory lengths 0x1C then 0x18 are tried on the
28-byte factory region at offset 0x14; the first pair whose recomputed
HMAC-SHA1 equals the stored checksum yields the uppercase-hex of decrypted
bytes 8..23 (guarded by the s_have_hdd flag, here the `Option` accumulator). -/
def recoverHddLoop (rom : List Nat) : Option String :=
  let chk := rom.take 0x14
  [EEPROM_KEY_V10, EEPROM_KEY_V11_14, EEPROM_KEY_V16].foldl
    (fun acc key =>
      match acc with
      | some h => some h
      | none =>
        let rc4key := hmacSha1 key chk
        let fac := (rom.drop 0x14).take 0x1C
        let st := rc4Init rc4key
        ([0x1C, 0x18] : List Nat).foldl
          (fun acc2 len =>
            match acc2 with
            | some h => some h
            | none =>
              let tmp := rc4CryptPrefix st fac len
              if hmacSha1 key (tmp.take len) = chk then
                some (toHexUpper ((tmp.drop 8).take 16))
              else none)
          none)
    none

/-- The flat candidate order the spec describes: each key with factory
lengths 0x1C then 0x18. -/
def eeCandidatePairs : List (List Nat × Nat) :=
  [(EEPROM_KEY_V10, 0x1C), (EEPROM_KEY_V10, 0x18),
   (EEPROM_KEY_V11_14, 0x1C), (EEPROM_KEY_V11_14, 0x18),
   (EEPROM_KEY_V16, 0x1C), (EEPROM_KEY_V16, 0x18)]

/-- One spec-side trial: derive the RC4 key, decrypt the factory region prefix,
validate against the stored checksum, and render bytes 8..23 as uppercase hex. -/
def eeTryPair (rom : List Nat) (p : List Nat × Nat) : Option String :=
  let chk := rom.take 0x14
  let rc4key := hmacSha1 p.1 chk
  let fac := (rom.drop 0x14).take 0x1C
  let tmp := rc4CryptPrefix (rc4Init rc4key) fac p.2
  if hmacSha1 p.1 (tmp.take p.2) = chk then
    some (toHexUpper ((tmp.drop 8).take 16))
  else none

/-! ## Wire serialization: int32 fields (little-endian, as on the ESP32) -/

/-- Serialize a C `int` (32-bit two's complement, little-endian). -/
def int32ToLE (x : Int) : List Nat :=
  let u := (x % 4294967296).toNat
  [u % 256, u / 256 % 256, u / 65536 % 256, u / 16777216 % 256]

/-- Read an unsigned little-endian 32-bit value at byte offset `i`. -/
def leU32At (l : List Nat) (i : Nat) : Nat :=
  l.getD i 0 + 256 * l.getD (i + 1) 0 + 65536 * l.getD (i + 2) 0 +
    16777216 * l.getD (i + 3) 0

/-- Read a signed 32-bit little-endian value at byte offset `i`. -/
def int32At (l : List Nat) (i : Nat) : Int :=
  let u := leU32At l i
  if u < 2147483648 then (u : Int) else (u : Int) - 4294967296

/-! ## Receiver aggregate status (xbox_status.h, receiver side) and parsers
(udp_detect.cpp); C strings are modelled as their byte lists before NUL. -/

/-- The receiver's XboxStatus aggregate (xbox_status.h). -/
structure XboxStatusRecv where
  fanSpeed : Int
  cpuTemp : Int
  ambientTemp : Int
  currentApp : List Nat
  trayState : Int
  avPackState : Int
  picVersion : Int
  xboxVersion : Int
  encoderType : Int
  videoWidth : Int
  videoHeight : Int
  resolution : String
  eeRaw : List Nat
  eeRawLen : Nat
  eeHddHex : String
  eeSerial : String
  eeMac : String
  eeRegion : String
  deriving Repr, DecidableEq

/-- UDPDetect::begin defaults. -/
def initRecv : XboxStatusRecv :=
  { fanSpeed := -1, cpuTemp := -1000, ambientTemp := -1000, currentApp := [],
    trayState := -1, avPackState := -1, picVersion := -1, xboxVersion := -1,
    encoderType := -1, videoWidth := -1, videoHeight := -1, resolution := "",
    eeRaw := [], eeRawLen := 0, eeHddHex := "", eeSerial := "", eeMac := "",
    eeRegion := "" }

/-- The C string a 31-char strncpy recovers from a byte buffer. -/
def cString (l : List Nat) : List Nat :=
  (l.takeWhile (fun b => !(b == 0))).take 31

/-- The Core channel branch of UDPDetect::loop: a packet of exactly
sizeof(CorePacket) = 44 bytes is decoded, anything else is discarded. -/
def parseCore (buf : List Nat) (s : XboxStatusRecv) : XboxStatusRecv :=
  if buf.length = 44 then
    { s with
      fanSpeed := int32At buf 0, cpuTemp := int32At buf 4,
      ambientTemp := int32At buf 8, currentApp := cString ((buf.drop 12).take 32) }
  else s

/-- The Core frame bytes of udp_stat.cpp sendUdpPacket: the raw cache struct,
three 32-bit ints followed by the zero-padded 32-byte app-name field. -/
def encodeCore (c : XboxStatus) : List Nat :=
  let app := c.currentApp.take 31
  int32ToLE c.fanSpeed ++ int32ToLE c.cpuTemp ++ int32ToLE c.ambientTemp ++
    app ++ List.replicate (32 - app.length) 0

/-- Modelled from the spec: the publisher's full `SMBusExt::Status` layout is
missing from src (smbus_ext.h keeps only the first three fields while
smbus_ext.cpp fills seven); the spec fixes the Expansion wire frame as seven
32-bit fields in the order trayState, avPackState, picVersion,
consoleRevision, videoWidth, videoHeight, encoderAddress (28 bytes). -/
def encodeExpansion (p : ExtPacket) : List Nat :=
  int32ToLE p.trayState ++ int32ToLE p.avPackState ++ int32ToLE p.picVer ++
    int32ToLE p.xboxVer ++ int32ToLE p.videoWidth ++ int32ToLE p.videoHeight ++
    int32ToLE p.encoderType

/-- parseExpansionBinary: a 28-byte payload decodes as seven int32 fields in
the order trayState, avPackState, picVersion, xboxVersion, videoWidth,
videoHeight, encoderType. -/
def parseExpansionBinary (buf : List Nat) (s : XboxStatusRecv) : XboxStatusRecv :=
  if buf.length = 28 then
    { s with
      trayState := int32At buf 0, avPackState := int32At buf 4,
      picVersion := int32At buf 8, xboxVersion := int32At buf 12,
      videoWidth := int32At buf 16, videoHeight := int32At buf 20,
      encoderType := int32At buf 24,
      resolution := formatResolution (int32At buf 16) (int32At buf 20) (int32At buf 4) }
  else s

/-! ## Base64 (publisher: ESP32 core base64::encode; receiver: base64_decode) -/

/-- The base64 alphabet. -/
def b64Chars : List Char :=
  "ABCDEFGHIJKLMNOPQRSTUVWXYZabcdefghijklmnopqrstuvwxyz0123456789+/".data

/-- Modelled from the spec: the ESP32 core `base64::encode` used by the
publisher is not part of this repository; standard RFC 4648 encoding with
padding and no line breaks. -/
def base64EncodeGroups : List Nat → List Char
  | a :: b :: c :: rest =>
    let n := a * 65536 + b * 256 + c
    b64Chars.getD (n / 262144) 'A' :: b64Chars.getD (n / 4096 % 64) 'A' ::
      b64Chars.getD (n / 64 % 64) 'A' :: b64Chars.getD (n % 64) 'A' ::
      base64EncodeGroups rest
  | [a, b] =>
    let n := a * 65536 + b * 256
    [b64Chars.getD (n / 262144) 'A', b64Chars.getD (n / 4096 % 64) 'A',
     b64Chars.getD (n / 64 % 64) 'A', '=']
  | [a] =>
    let n := a * 65536
    [b64Chars.getD (n / 262144) 'A', b64Chars.getD (n / 4096 % 64) 'A', '=', '=']
  | [] => []

/-- Base64 encoding of a byte list as a string. -/
def base64Encode (bs : List Nat) : String :=
  String.mk (base64EncodeGroups bs)

/-- b64val of udp_detect.cpp: alphabet index, -2 for padding, -1 to skip. -/
def b64val (c : Char) : Int :=
  if 'A' ≤ c ∧ c ≤ 'Z' then ((c.toNat - 65 : Nat) : Int)
  else if 'a' ≤ c ∧ c ≤ 'z' then ((c.toNat - 97 + 26 : Nat) : Int)
  else if '0' ≤ c ∧ c ≤ '9' then ((c.toNat - 48 + 52 : Nat) : Int)
  else if c = '+' then 62
  else if c = '/' then 63
  else if c = '=' then -2
  else -1

/-- The loop body of base64_decode: a four-entry quantum accumulator, bytes
emitted under the output capacity check, early stop after a padded quantum. -/
def base64DecodeLoop : List Char → List Int → Nat → List Nat → List Nat
  | [], _, _, out => out
  | ch :: rest, q, cap, out =>
    let v := b64val ch
    if v < 0 ∧ v ≠ -2 then base64DecodeLoop rest q cap out
    else
      let q := q ++ [v]
      if q.length = 4 then
        let pad := (if q.getD 2 0 = -2 then 1 else 0) +
          (if q.getD 3 0 = -2 then 1 else 0)
        let b := ((Int.land (q.getD 0 0) 63).toNat <<< 18) |||
          ((Int.land (q.getD 1 0) 63).toNat <<< 12) |||
          ((Int.land (if q.getD 2 0 < 0 then 0 else q.getD 2 0) 63).toNat <<< 6) |||
          (Int.land (if q.getD 3 0 < 0 then 0 else q.getD 3 0) 63).toNat
        let out := if pad < 3 ∧ out.length < cap then out ++ [(b >>> 16) &&& 0xFF] else out
        let out := if pad < 2 ∧ out.length < cap then out ++ [(b >>> 8) &&& 0xFF] else out
        let out := if pad < 1 ∧ out.length < cap then out ++ [b &&& 0xFF] else out
        if pad ≠ 0 then out else base64DecodeLoop rest [] cap out
      else base64DecodeLoop rest q cap out

/-- base64_decode of udp_detect.cpp. -/
def base64_decode (s : String) (cap : Nat) : List Nat :=
  base64DecodeLoop s.data [] cap []

/-! ## EEPROM label helpers (eeprom_min.cpp) and the labeled-line parser
(udp_detect.cpp parseEE_line) -/

/-- cleanSerial: stop at NUL/0xFF, uppercase, keep A-Z and 0-9 only. -/
def cleanSerial (src : List Nat) : List Char :=
  (src.takeWhile (fun b => !(b == 0 || b == 255))).foldr
    (fun b acc =>
      let c := if 97 ≤ b ∧ b ≤ 122 then b - 32 else b
      if (65 ≤ c ∧ c ≤ 90) ∨ (48 ≤ c ∧ c ≤ 57) then Char.ofNat c :: acc else acc)
    []

/-- macToStr: colon-separated uppercase hex pairs of six bytes. -/
def macToStr (mac : List Nat) : List Char :=
  (List.range 6).foldr
    (fun i acc =>
      nybToHex (mac.getD i 0 >>> 4) :: nybToHex (mac.getD i 0) ::
        (if i ≠ 5 then ':' :: acc else acc))
    []

/-- regionName: region byte to name. -/
def regionName (r : Nat) : String :=
  if r &&& 0xFF = 0 then "NTSC-U"
  else if r &&& 0xFF = 1 then "NTSC-J"
  else if r &&& 0xFF = 2 then "PAL"
  else "UNKNOWN"

/-- trim_inplace: leading spaces/tabs and trailing whitespace removed. -/
def trimChars (l : List Char) : List Char :=
  ((l.dropWhile (fun c => c == ' ' || c == '\t')).reverse.dropWhile
    (fun c => c == ' ' || c == '\t' || c == '\r' || c == '\n')).reverse

/-- Split at every delimiter occurrence (the segments between delimiters). -/
def splitSep (d : Char) : List Char → List (List Char)
  | [] => [[]]
  | c :: rest =>
    match splitSep d rest with
    | t :: ts => if c = d then [] :: t :: ts else (c :: t) :: ts
    | [] => if c = d then [[], []] else [[c]]

/-- strtok_r tokenization on a delimiter: empty tokens are skipped. -/
def strtokSplit (d : Char) (l : List Char) : List (List Char) :=
  (splitSep d l).filter (fun t => !t.isEmpty)

/-- strchr-based key=value split at the first '=' of a token. -/
def splitAtFirstEq (tok : List Char) : Option (List Char × List Char) :=
  if tok.contains '=' then
    some (tok.takeWhile (fun c => !(c == '=')),
      (tok.dropWhile (fun c => !(c == '='))).drop 1)
  else none

/-- One labeled token applied to the aggregate (keys uppercased, values
trimmed, each buffer capped at its C size minus one). -/
def applyEEToken (s : XboxStatusRecv) (tok : List Char) : XboxStatusRecv :=
  match splitAtFirstEq tok with
  | none => s
  | some (k, v) =>
    let key := (trimChars k).map Char.toUpper
    let val := trimChars v
    if key = "SN".data then { s with eeSerial := String.mk (val.take 12) }
    else if key = "MAC".data then { s with eeMac := String.mk (val.take 17) }
    else if key = "REG".data then { s with eeRegion := String.mk (val.take 11) }
    else if key = "HDD".data then { s with eeHddHex := String.mk (val.take 32) }
    else if key = "RAW".data then
      { s with
        eeRaw := base64DecodeLoop val [] 256 [],
        eeRawLen := (base64DecodeLoop val [] 256 []).length }
    else s

/-- parseEE_line: dispatch on the RAW / HDD / labeled SN prefixes. -/
def parseEE_line (line : String) (s : XboxStatusRecv) : XboxStatusRecv :=
  let l := line.data
  if l.take 7 = "EE:RAW=".data then
    { s with
      eeRaw := base64DecodeLoop (l.drop 7) [] 256 [],
      eeRawLen := (base64DecodeLoop (l.drop 7) [] 256 []).length }
  else if l.take 7 = "EE:HDD=".data then
    { s with eeHddHex := String.mk ((l.drop 7).take 32) }
  else if l.take 6 = "EE:SN=".data then
    let tmp := (l.drop 3).take (min l.length 1023 - 3)
    (strtokSplit '|' tmp).foldl applyEEToken s
  else s

/-- The labeled EE:SN=..|MAC=..|REG=..|HDD=..|RAW=.. line the publisher sends
(send_broadcasts_from_cache). -/
def eeLabeledLine (rom : List Nat) (hddHex rawB64 : String) : String :=
  "EE:SN=" ++ String.mk (cleanSerial ((rom.drop 0x34).take 12)) ++
  "|MAC=" ++ String.mk (macToStr ((rom.drop 0x40).take 6)) ++
  "|REG=" ++ regionName (rom.getD 0x58 0) ++
  "|HDD=" ++ hddHex ++
  "|RAW=" ++ rawB64

/-! ## EEPROM broadcaster lifecycle (eeprom_min.cpp broadcastOnce / tick)

The one physical read is modelled by an oracle value consulted only when
readAll is actually invoked; a `busAttempt` event marks each invocation. -/

/-- The static state of the XboxEEPROM namespace. -/
structure EEState where
  haveRom : Bool
  rom : List Nat
  haveHdd : Bool
  hddHex : String
  rawB64 : String
  lastBcast : Nat
  readDone : Bool
  deriving Repr, DecidableEq

/-- Observable effects of the EEPROM broadcaster. -/
inductive EEEvent where
  | busAttempt
  | errFrame
  | rawFrame (b64 : String)
  | hddFrame (hex : String)
  | labeledFrame (line : String)
  deriving Repr, DecidableEq

/-- Static zero-initialized state at boot. -/
def eeInit : EEState :=
  { haveRom := false, rom := List.replicate 256 0, haveHdd := false,
    hddHex := "", rawB64 := "", lastBcast := 0, readDone := false }

namespace XboxEEPROM

/-- send_broadcasts_from_cache: nothing without a cached ROM; otherwise the
Base64 cache is prepared once and RAW, optional HDD, duplicate RAW and the
optional labeled line are broadcast. -/
def sendBroadcastsFromCache (st : EEState) : EEState × List EEEvent :=
  if !st.haveRom then (st, [])
  else
    let st := if st.rawB64.length = 0 then { st with rawB64 := base64Encode st.rom } else st
    (st,
      [EEEvent.rawFrame st.rawB64] ++
      (if st.haveHdd then [EEEvent.hddFrame st.hddHex] else []) ++
      [EEEvent.rawFrame st.rawB64] ++
      (if st.haveHdd then
        [EEEvent.labeledFrame (eeLabeledLine st.rom st.hddHex st.rawB64)]
      else []))

/-- The frames one cache broadcast emits from a given state. -/
def cacheFrames (st : EEState) : List EEEvent :=
  (sendBroadcastsFromCache st).2

/-- XboxEEPROM::broadcastOnce: the one-time readAll + decrypt + cache on the
first call (failure sends ERR=READ_FAIL once and latches read_done), then an
immediate broadcast from cache. -/
def broadcastOnce (readResult : Option (List Nat)) (now : Nat) (st : EEState) :
    EEState × List EEEvent :=
  if !st.readDone then
    if !st.haveRom then
      match readResult with
      | none =>
        ({ st with readDone := true }, [EEEvent.busAttempt, EEEvent.errFrame])
      | some rom =>
        let hdd := recoverHddLoop rom
        let st := { st with
          rom := rom, haveRom := true,
          haveHdd := hdd.isSome, hddHex := hdd.getD st.hddHex }
        let st := if st.rawB64.length = 0 then { st with rawB64 := base64Encode st.rom } else st
        let st := { st with readDone := true }
        let r := sendBroadcastsFromCache st
        ({ r.1 with lastBcast := now }, EEEvent.busAttempt :: r.2)
    else
      let st := if st.rawB64.length = 0 then { st with rawB64 := base64Encode st.rom } else st
      let st := { st with readDone := true }
      let r := sendBroadcastsFromCache st
      ({ r.1 with lastBcast := now }, r.2)
  else
    let r := sendBroadcastsFromCache st
    ({ r.1 with lastBcast := now }, r.2)

/-- XboxEEPROM::tick: periodic rebroadcast from cache every 10000 ms. -/
def tick (now : Nat) (st : EEState) : EEState × List EEEvent :=
  if !st.haveRom then (st, [])
  else if now - st.lastBcast ≥ 10000 then
    let r := sendBroadcastsFromCache st
    ({ r.1 with lastBcast := now }, r.2)
  else (st, [])

end XboxEEPROM

/-- Calls into the EEPROM broadcaster. -/
inductive EEOp where
  | bcast (readResult : Option (List Nat)) (now : Nat)
  | tick (now : Nat)
  deriving Repr

/-- Apply one broadcaster call. -/
def EEOp.apply (st : EEState) : EEOp → EEState × List EEEvent
  | .bcast r now => XboxEEPROM.broadcastOnce r now st
  | .tick now => XboxEEPROM.tick now st

/-- Run a sequence of broadcaster calls, concatenating emitted events. -/
def eeRun (st : EEState) : List EEOp → EEState × List EEEvent
  | [] => (st, [])
  | op :: ops =>
    let r := op.apply st
    let rr := eeRun r.1 ops
    (rr.1, r.2 ++ rr.2)

/-- Two broadcaster states agree on the cached snapshot (everything except the
rebroadcast timestamp). -/
def eeFrozen (a b : EEState) : Prop :=
  a.readDone = b.readDone ∧ a.haveRom = b.haveRom ∧ a.rom = b.rom ∧
  a.haveHdd = b.haveHdd ∧ a.hddHex = b.hddHex ∧ a.rawB64 = b.rawB64

/-- Invariant after the first broadcastOnce: the read is latched and the
Base64 cache agrees with the cached ROM whenever one exists. -/
def eeInv (st : EEState) : Prop :=
  st.readDone = true ∧ (st.haveRom = true → st.rawB64 = base64Encode st.rom)

/-! ## Sensor poller lifecycle (archive/xbox_smbus_poll.cpp begin / poll) -/

/-- Outcomes of the bus interactions one poll tick may attempt. -/
structure PollOracle where
  lockOk : Bool
  busFree1 : Bool
  busFree2 : Bool
  xcalProbeOk : Bool
  smcRead : Option Nat
  deriving Repr

/-- The poller's static pacing and detection state plus the status struct. -/
structure PollState where
  firstMs : Nat
  nextAllowedMs : Nat
  errStreak : Nat
  rrStep : Nat
  is16Known : Bool
  is16Cached : Bool
  status : XboxSMBusStatus
  deriving Repr, DecidableEq

/-- Observable one-shot events of a poll tick. -/
inductive PollEv where
  | xcalProbe (ok : Bool)
  deriving Repr, DecidableEq

/-- Jitter used by poll: `100 + ((now & 0xFF) % 200)`. -/
def pollJitter (now : Nat) : Nat :=
  100 + (now &&& 0xFF) % 200

namespace XboxSMBusPoll

/-- XboxSMBusPoll::begin at time `now`. -/
def begin (now : Nat) : PollState :=
  { firstMs := now, nextAllowedMs := now + 10000, errStreak := 0, rrStep := 0,
    is16Known := false, is16Cached := false,
    status := { cpuTemp := -1, boardTemp := -1, fanSpeed := -1 } }

/-- The round-robin read step of poll (the `switch (g_rr_step++ & 0x03)`). -/
def pollRR (o : PollOracle) (is16 : Bool) (st : PollState) : PollState × Bool :=
  let step := st.rrStep % 4
  let st := { st with rrStep := (st.rrStep + 1) % 256 }
  match step with
  | 0 =>
    match o.smcRead with
    | some val =>
      if val < 120 then
        ({ st with status := { st.status with cpuTemp := (val : Int) } }, true)
      else (st, false)
    | none => (st, false)
  | 1 =>
    match o.smcRead with
    | some val =>
      if val < 120 then
        ({ st with status := { st.status with
            boardTemp := if is16 then corr16 val else (val : Int) } }, true)
      else (st, false)
    | none => (st, false)
  | 2 =>
    match o.smcRead with
    | some val =>
      if val ≤ 50 then
        ({ st with status := { st.status with fanSpeed := (val : Int) * 2 } }, true)
      else (st, false)
    | none => (st, false)
  | _ => (st, true)

/-- XboxSMBusPoll::poll: one tick.  Returns the new state, the tick's boolean
result, and the probe events of the tick. -/
def poll (o : PollOracle) (now : Nat) (st : PollState) :
    PollState × Bool × List PollEv :=
  if now < st.nextAllowedMs then (st, true, [])
  else if ¬ o.lockOk then ({ st with nextAllowedMs := now + 500 }, true, [])
  else
    let okBus := if o.busFree1 then true else o.busFree2
    -- one-shot 1.6 detection, only after the post-boot delay; marked known
    -- regardless of the probe result to avoid repeat pokes
    let doProbe := okBus && !st.is16Known && decide (now - st.firstMs ≥ 12000)
    let st := if doProbe then
        { st with is16Cached := o.xcalProbeOk, is16Known := true }
      else st
    let evs := if doProbe then [PollEv.xcalProbe o.xcalProbeOk] else []
    let is16 := st.is16Cached
    -- round-robin read step
    let r := if okBus then pollRR o is16 st else (st, false)
    let st := r.1
    if ¬ r.2 then
      let streak := if st.errStreak < 5 then st.errStreak + 1 else st.errStreak
      let backoff := 8000 <<< (streak - 1)
      let backoff := if backoff > 60000 then 60000 else backoff
      ({ st with errStreak := streak, nextAllowedMs := now + backoff + pollJitter now },
        false, evs)
    else
      ({ st with errStreak := 0, nextAllowedMs := now + 500 + pollJitter now },
        true, evs)

end XboxSMBusPoll

/-- Run a sequence of poll ticks, concatenating probe events. -/
def pollRun (st : PollState) : List (PollOracle × Nat) → PollState × List PollEv
  | [] => (st, [])
  | i :: rest =>
    let r := XboxSMBusPoll.poll i.1 i.2 st
    let rr := pollRun r.1 rest
    (rr.1, r.2.2 ++ rr.2)

/-! ## Bus-lock interleaving (C1): the FreeRTOS-mutex acquirers of
xbox_smbus_poll.cpp against the legacy flag acquirer of eeprom_min.cpp

One atomic step per source primitive: `xSemaphoreTake`, the legacy-flag store
of smbus_acquire, the flag store of smbus_release, `xSemaphoreGive`, and the
interrupt-masked test-and-set / clear of eeprom_min's try_lock_smbus and
unlock_smbus. -/

/-- Program counter of a mutex-path acquirer (smbus_acquire .. smbus_release). -/
inductive PollerPc where
  | idle
  | setFlag
  | cs
  | clearFlag
  | give
  deriving Repr, DecidableEq

/-- Program counter of the flag-path acquirer (eeprom_min lock_with_timeout). -/
inductive EEPc where
  | idle
  | cs
  deriving Repr, DecidableEq

/-- Shared lock state: the FreeRTOS mutex and the legacy g_smbus_locked flag,
plus both tasks' program counters. -/
structure SysState where
  mutexHeld : Bool
  flag : Bool
  ppc : PollerPc
  epc : EEPc
  deriving Repr, DecidableEq

/-- One atomic step of either task, as the source implements each primitive. -/
inductive SysStep : SysState → SysState → Prop where
  | pollerTake (s : SysState) :
      s.ppc = PollerPc.idle → s.mutexHeld = false →
      SysStep s { s with mutexHeld := true, ppc := PollerPc.setFlag }
  | pollerSetFlag (s : SysState) :
      s.ppc = PollerPc.setFlag →
      SysStep s { s with flag := true, ppc := PollerPc.cs }
  | pollerFinish (s : SysState) :
      s.ppc = PollerPc.cs →
      SysStep s { s with ppc := PollerPc.clearFlag }
  | pollerClearFlag (s : SysState) :
      s.ppc = PollerPc.clearFlag →
      SysStep s { s with flag := false, ppc := PollerPc.give }
  | pollerGive (s : SysState) :
      s.ppc = PollerPc.give →
      SysStep s { s with mutexHeld := false, ppc := PollerPc.idle }
  | eeTryLock (s : SysState) :
      s.epc = EEPc.idle → s.flag = false →
      SysStep s { s with flag := true, epc := EEPc.cs }
  | eeUnlock (s : SysState) :
      s.epc = EEPc.cs →
      SysStep s { s with flag := false, epc := EEPc.idle }

/-- Both locks free, both tasks idle. -/
def sysInit : SysState :=
  { mutexHeld := false, flag := false, ppc := PollerPc.idle, epc := EEPc.idle }

/-- States reachable from boot. -/
inductive SysReachable : SysState → Prop where
  | init : SysReachable sysInit
  | step (s t : SysState) : SysReachable s → SysStep s t → SysReachable t

/-- A concrete oracle for exercising the sampler: lock held, base reads good,
version read failing, only the Xcalibur probe answering, all other reads
failing. -/
def oXcal : ExtOracle :=
  { lockOk := true, trayRead := some 1, avRead := some 6, picRead := some 2,
    verRead := none, conexantProbe := false, focusProbe := false,
    xcalProbe := true, conexant2E := none, focusPidStop := none,
    focusPidRS := none, focusVc0Stop := none, focusVc0RS := none,
    focusWStop := none, focusHStop := none, focusWRS := none,
    focusHRS := none, focusNlStop := none, focusNpStop := none,
    focusNlRS := none, focusNpRS := none, xcalModeRead := none }

/-- The sampler's startup state (after begin() at time 0, grace elapsed). -/
def stExt0 : ExtState :=
  { nextAllowedMs := 0, encoderKnown := false, encoderCache := -1,
    xcalModeKnown := false, xcalModeCode := -1, xcalNextProbeMs := 0 }

/-- The frame the sampler sends for `oXcal` from `stExt0` at time 1000. -/
def pXcal : ExtPacket :=
  { trayState := 1, avPackState := 6, picVer := 2, xboxVer := 6,
    videoWidth := 720, videoHeight := 480, encoderType := 0x70 }

/-- A concrete poll-tick oracle: lock and bus fine, Xcalibur probe failing,
SMC read returning 40. -/
def oProbeFail : PollOracle :=
  { lockOk := true, busFree1 := true, busFree2 := true, xcalProbeOk := false,
    smcRead := some 40 }

/-! ## Theorems: sensor cache (C4, C9) -/

/-- C4 counterexample: on a family-1.6 board a raw board-temperature byte of
119 — outside the claimed pre-correction band 0 < v < 100 — is corrected to 92
and accepted into the SensorSample cache, so acceptance does not imply
0 < v < 100 for the raw pre-correction value. -/
theorem C4_counterexample :
    boardAcceptedValue (some 119) true = some 92 ∧
    ¬ ((0 : Int) < 119 ∧ (119 : Int) < 100) := by
  constructor
  · unfold boardAcceptedValue pollBoardValue
    norm_num
    unfold corr16 truncInt
    norm_num
  · omega

/-- C4 (amended): a temperature read is accepted into the SensorSample cache
only if the value as stored satisfies 0 < v < 100, where the stored value is
the raw byte for CPU reads and for board reads on non-1.6 boards, and the
family-1.6 corrected value for board reads on 1.6 boards; the raw
pre-correction byte itself is only guaranteed to be < 120. -/
theorem C4_amended :
    (∀ read is16 v, boardAcceptedValue read is16 = some v →
      ((0 : Int) < v ∧ v < 100) ∧
      ∃ raw, read = some raw ∧ raw < 120 ∧
        v = (if is16 then corr16 raw else (raw : Int))) ∧
    (∀ read v, cpuAcceptedValue read = some v →
      ∃ raw, read = some raw ∧ 0 < raw ∧ raw < 100 ∧ v = (raw : Int)) := by
  constructor
  · intro read is16 v h
    match read with
    | none => simp [boardAcceptedValue, pollBoardValue] at h
    | some raw =>
      by_cases h120 : raw < 120
      · cases is16 with
        | false =>
          simp [boardAcceptedValue, pollBoardValue, h120] at h
          obtain ⟨⟨h1, h2⟩, hv⟩ := h
          subst hv
          exact ⟨⟨by exact_mod_cast h1, by exact_mod_cast h2⟩, raw, rfl, h120, by simp⟩
        | true =>
          simp [boardAcceptedValue, pollBoardValue, h120] at h
          obtain ⟨⟨h1, h2⟩, hv⟩ := h
          subst hv
          exact ⟨⟨h1, h2⟩, raw, rfl, h120, by simp⟩
      · simp [boardAcceptedValue, pollBoardValue, h120] at h
  · intro read v h
    match read with
    | none => simp [cpuAcceptedValue] at h
    | some raw =>
      by_cases h120 : raw < 120
      · simp [cpuAcceptedValue, h120] at h
        obtain ⟨⟨h1, h2⟩, hv⟩ := h
        subst hv
        exact ⟨raw, rfl, by exact_mod_cast h1, by exact_mod_cast h2, rfl⟩
      · simp [cpuAcceptedValue, h120] at h

/-- C4 amended witness: a CPU read of 42 and a non-1.6 board read of 50 are
accepted and satisfy the amended band conditions. -/
theorem C4_amended_witness :
    (((0 : Int) < 50 ∧ (50 : Int) < 100) ∧
      ∃ raw, (some 50 : Option Nat) = some raw ∧ raw < 120 ∧
        (50 : Int) = (if false then corr16 raw else (raw : Int))) ∧
    ∃ raw, (some 42 : Option Nat) = some raw ∧ 0 < raw ∧ raw < 100 ∧
      (42 : Int) = (raw : Int) :=
  ⟨C4_amended.1 (some 50) false 50 rfl, C4_amended.2 (some 42) 42 rfl⟩

/-- C9: after reset the fan speed is the sentinel -1; setFanSpeed always stores
the clamp of its argument to [0,100]; and in every reachable cache state the
fan speed is either -1 or in [0,100]. -/
theorem C9_fan_clamp_invariant :
    (∀ c, (Cache_Manager.reset c).fanSpeed = -1) ∧
    (∀ c p, (Cache_Manager.setFanSpeed c p).fanSpeed = max 0 (min 100 p)) ∧
    (∀ c, CacheReachable c →
      c.fanSpeed = -1 ∨ (0 ≤ c.fanSpeed ∧ c.fanSpeed ≤ 100)) := by
  have hset : ∀ c p, (Cache_Manager.setFanSpeed c p).fanSpeed = max 0 (min 100 p) := by
    intro c p
    simp only [Cache_Manager.setFanSpeed]
    split <;> split <;> omega
  have hcpu : ∀ c v, (Cache_Manager.setCpuTemp c v).fanSpeed = c.fanSpeed := by
    intro c v
    unfold Cache_Manager.setCpuTemp
    split <;> rfl
  have hamb : ∀ c v, (Cache_Manager.setAmbientTemp c v).fanSpeed = c.fanSpeed := by
    intro c v
    unfold Cache_Manager.setAmbientTemp
    split <;> rfl
  have happ : ∀ c n, (Cache_Manager.setCurrentApp c n).fanSpeed = c.fanSpeed := by
    intro c n
    unfold Cache_Manager.setCurrentApp
    split <;> rfl
  refine ⟨fun _ => rfl, hset, ?_⟩
  intro c h
  induction h with
  | init c => left; rfl
  | step c op _ ih =>
    cases op with
    | reset => left; rfl
    | setFanSpeed p =>
      right
      rw [CacheOp.apply, hset]
      omega
    | setCpuTemp v => rw [CacheOp.apply, hcpu]; exact ih
    | setAmbientTemp v => rw [CacheOp.apply, hamb]; exact ih
    | setCurrentApp n => rw [CacheOp.apply, happ]; exact ih
    | updateFromSmbus st =>
      right
      rw [CacheOp.apply]
      unfold Cache_Manager.updateFromSmbus
      rw [hamb, hcpu, hset]
      omega

/-- C9 witness: the invariant instantiated at the freshly reset cache state. -/
theorem C9_fan_clamp_invariant_witness :
    (Cache_Manager.reset ⟨0, 0, 0, []⟩).fanSpeed = -1 ∧
    (Cache_Manager.setFanSpeed ⟨0, 0, 0, []⟩ 250).fanSpeed = max 0 (min 100 250) ∧
    ((Cache_Manager.reset ⟨0, 0, 0, []⟩).fanSpeed = -1 ∨
      (0 ≤ (Cache_Manager.reset ⟨0, 0, 0, []⟩).fanSpeed ∧
        (Cache_Manager.reset ⟨0, 0, 0, []⟩).fanSpeed ≤ 100)) :=
  ⟨C9_fan_clamp_invariant.1 _, C9_fan_clamp_invariant.2.1 _ 250,
    C9_fan_clamp_invariant.2.2 _ (CacheReachable.init _)⟩

/-! ## Theorems: extended status sampler (C6, C7) -/

/-- C6: on a pass that acquired the lock, if any of the three base register
reads (tray, AV pack, PIC version) fails, no Expansion frame is sent, the next
allowed send time is the backoff delay 9000 ms plus jitter (not the nominal
4000 ms cadence), and the lock is acquired and released exactly once; and a
frame is only ever sent when all three base reads succeeded. -/
theorem C6_base_read_failure_backoff :
    (∀ o now st, o.lockOk = true →
      (o.trayRead = none ∨ o.avRead = none ∨ o.picRead = none) →
      (sendExtStatus o now st).2.1 = none ∧
      (sendExtStatus o now st).1.nextAllowedMs = now + 9000 + extJitter now ∧
      (sendExtStatus o now st).2.2 = [LockEv.acq, LockEv.rel]) ∧
    (∀ o now st p, (sendExtStatus o now st).2.1 = some p →
      o.trayRead.isSome ∧ o.avRead.isSome ∧ o.picRead.isSome) := by
  constructor
  · intro o now st hl hfail
    unfold sendExtStatus
    rw [hl]
    rcases hfail with h | h | h <;> rw [h] <;>
      rcases htr : o.trayRead with _ | t <;>
      rcases hav : o.avRead with _ | a <;>
      rcases hpic : o.picRead with _ | p <;>
      simp_all
  · intro o now st p h
    unfold sendExtStatus at h
    by_cases hl : o.lockOk
    · rw [if_neg (by simp [hl])] at h
      rcases htr : o.trayRead with _ | t <;>
        rcases hav : o.avRead with _ | a <;>
        rcases hpic : o.picRead with _ | q <;>
        rw [htr, hav, hpic] at h <;> simp_all
    · rw [if_pos (by simp [hl])] at h
      simp at h

/-- C6 witness: with the lock held and the AV-pack read failing, the concrete
pass at time 1000 sends nothing and backs off to 1000 + 9000 + jitter. -/
theorem C6_base_read_failure_backoff_witness :
    ((sendExtStatus
        { lockOk := true, trayRead := some 1, avRead := none, picRead := some 2,
          verRead := some 3, conexantProbe := false, focusProbe := false,
          xcalProbe := false, conexant2E := none, focusPidStop := none,
          focusPidRS := none, focusVc0Stop := none, focusVc0RS := none,
          focusWStop := none, focusHStop := none, focusWRS := none,
          focusHRS := none, focusNlStop := none, focusNpStop := none,
          focusNlRS := none, focusNpRS := none, xcalModeRead := none }
        1000
        { nextAllowedMs := 0, encoderKnown := false, encoderCache := -1,
          xcalModeKnown := false, xcalModeCode := -1, xcalNextProbeMs := 0 }).2.1
      = none) ∧
    ((sendExtStatus
        { lockOk := true, trayRead := some 1, avRead := none, picRead := some 2,
          verRead := some 3, conexantProbe := false, focusProbe := false,
          xcalProbe := false, conexant2E := none, focusPidStop := none,
          focusPidRS := none, focusVc0Stop := none, focusVc0RS := none,
          focusWStop := none, focusHStop := none, focusWRS := none,
          focusHRS := none, focusNlStop := none, focusNpStop := none,
          focusNlRS := none, focusNpRS := none, xcalModeRead := none }
        1000
        { nextAllowedMs := 0, encoderKnown := false, encoderCache := -1,
          xcalModeKnown := false, xcalModeCode := -1, xcalNextProbeMs := 0 }).1.nextAllowedMs
      = 1000 + 9000 + extJitter 1000) := by
  have h := C6_base_read_failure_backoff.1
    { lockOk := true, trayRead := some 1, avRead := none, picRead := some 2,
      verRead := some 3, conexantProbe := false, focusProbe := false,
      xcalProbe := false, conexant2E := none, focusPidStop := none,
      focusPidRS := none, focusVc0Stop := none, focusVc0RS := none,
      focusWStop := none, focusHStop := none, focusWRS := none,
      focusHRS := none, focusNlStop := none, focusNpStop := none,
      focusNlRS := none, focusNpRS := none, xcalModeRead := none }
    1000
    { nextAllowedMs := 0, encoderKnown := false, encoderCache := -1,
      xcalModeKnown := false, xcalModeCode := -1, xcalNextProbeMs := 0 }
    rfl (Or.inr (Or.inl rfl))
  exact ⟨h.1, h.2.1⟩

/-- C7: whenever an Expansion frame is sent, its console revision field is the
firmware byte when that read succeeded with a value in [0,6]; otherwise it is 6
exactly when the detected encoder is the Xcalibur (0x70), and -1 otherwise —
and no value outside these three cases is ever reported. -/
theorem C7_console_revision_policy :
    ∀ o now st p, (sendExtStatus o now st).2.1 = some p →
      (∀ b, o.verRead = some b → b ≤ 6 → p.xboxVer = (b : Int)) ∧
      ((o.verRead = none ∨ ∃ b, o.verRead = some b ∧ 6 < b) →
        ((detectEncoderOnce o st).encoderCache = 0x70 → p.xboxVer = 6) ∧
        ((detectEncoderOnce o st).encoderCache ≠ 0x70 → p.xboxVer = -1)) ∧
      ((∃ b, o.verRead = some b ∧ b ≤ 6 ∧ p.xboxVer = (b : Int)) ∨
        p.xboxVer = 6 ∨ p.xboxVer = -1) := by
  intro o now st p h
  have hx : p.xboxVer = extXboxVer o st := by
    unfold sendExtStatus at h
    by_cases hl : o.lockOk
    case neg => rw [if_pos (by simp [hl])] at h; simp at h
    rw [if_neg (by simp [hl])] at h
    rcases htr : o.trayRead with _ | t <;> rw [htr] at h <;>
      rcases hav : o.avRead with _ | a <;> rw [hav] at h <;>
      rcases hpic : o.picRead with _ | q <;> rw [hpic] at h <;>
      simp at h
    rw [← h]
  refine ⟨fun b hb hble => ?_, fun hinv => ?_, ?_⟩
  · rw [hx]
    unfold extXboxVer extSmcValid
    rw [hb]
    simp [hble]
  · have hnv : extSmcValid o = false := by
      unfold extSmcValid
      rcases hinv with hc | ⟨b, hb, hgt⟩
      · rw [hc]
      · rw [hb]; simp; omega
    constructor
    · intro henc
      rw [hx]
      unfold extXboxVer
      rw [hnv]
      simp [henc]
    · intro henc
      rw [hx]
      unfold extXboxVer
      rw [hnv]
      simp [henc]
  · rw [hx]
    unfold extXboxVer extSmcValid
    rcases hver : o.verRead with _ | b
    · by_cases henc : (detectEncoderOnce o st).encoderCache = 0x70 <;> simp [henc]
    · by_cases hb : b ≤ 6
      · exact Or.inl ⟨b, rfl, hb, by simp [hb]⟩
      · by_cases henc : (detectEncoderOnce o st).encoderCache = 0x70 <;> simp [hb, henc]

/-- C7 witness: with the version read failing and only the Xcalibur probe
answering, the concrete pass sends `pXcal`, whose console revision is 6. -/
theorem C7_console_revision_policy_witness :
    (sendExtStatus oXcal 1000 stExt0).2.1 = some pXcal ∧ pXcal.xboxVer = 6 :=
  ⟨by decide,
    ((C7_console_revision_policy oXcal 1000 stExt0 pXcal (by decide)).2.1
      (Or.inl rfl)).1 (by decide)⟩

/-! ## Theorems: key recovery (C3) -/

/-- A fold that keeps an already-found value is inert. -/
theorem foldlFlagged_some {α β : Type} (f : α → Option β) (v : β) :
    ∀ l : List α,
      l.foldl (fun acc x => match acc with | some h => some h | none => f x)
        (some v) = some v := by
  intro l
  induction l with
  | nil => rfl
  | cons x xs ih => simpa using ih

/-- A fold with a found-flag accumulator computes the first success. -/
theorem foldlFlagged_eq_findSome {α β : Type} (f : α → Option β) :
    ∀ l : List α,
      l.foldl (fun acc x => match acc with | some h => some h | none => f x)
        none = l.findSome? f := by
  intro l
  induction l with
  | nil => rfl
  | cons x xs ih =>
    simp only [List.foldl_cons, List.findSome?_cons]
    cases h : f x with
    | none => simpa [h] using ih
    | some v => simpa [h] using foldlFlagged_some f v xs

/-- C3: the broadcastOnce decrypt loop returns exactly the first candidate
(key, factory-length) pair — in the order v1.0, v1.1-1.4, v1.6, each with
lengths 0x1C then 0x18 — whose recomputed HMAC-SHA1 of the decrypted factory
region equals the stored checksum, rendering decrypted bytes 8..23 as uppercase
hex; and it reports no key exactly when no pair validates. -/
theorem C3_key_recovery_first_match :
    ∀ rom : List Nat,
      recoverHddLoop rom = eeCandidatePairs.findSome? (eeTryPair rom) ∧
      (recoverHddLoop rom = none ↔
        ∀ p ∈ eeCandidatePairs, eeTryPair rom p = none) := by
  intro rom
  have hbridge : recoverHddLoop rom =
      eeCandidatePairs.findSome? (eeTryPair rom) := by
    unfold recoverHddLoop
    simp only [foldlFlagged_eq_findSome]
    rcases h1 : eeTryPair rom (EEPROM_KEY_V10, 0x1C) with _ | v1 <;>
      rcases h2 : eeTryPair rom (EEPROM_KEY_V10, 0x18) with _ | v2 <;>
      rcases h3 : eeTryPair rom (EEPROM_KEY_V11_14, 0x1C) with _ | v3 <;>
      rcases h4 : eeTryPair rom (EEPROM_KEY_V11_14, 0x18) with _ | v4 <;>
      rcases h5 : eeTryPair rom (EEPROM_KEY_V16, 0x1C) with _ | v5 <;>
      rcases h6 : eeTryPair rom (EEPROM_KEY_V16, 0x18) with _ | v6 <;>
      simp only [eeTryPair] at h1 h2 h3 h4 h5 h6 <;>
      simp [eeCandidatePairs, eeTryPair, List.findSome?_cons, h1, h2, h3, h4, h5, h6]
  refine ⟨hbridge, ?_⟩
  rw [hbridge]
  constructor
  · intro hnone p hp
    rcases List.findSome?_eq_none_iff.mp hnone p hp with h
    exact h
  · intro hall
    exact List.findSome?_eq_none_iff.mpr fun p hp => hall p hp

/-! ## Theorems: resolution formatter (C8) -/

/-- C8: every width within ±32 of 1280 and height within ±8 of 720 formats as
a 720p-labelled string, whatever the AV-pack state. -/
theorem C8_720p_tolerance_band :
    ∀ w h av : Int, |w - 1280| ≤ 32 → |h - 720| ≤ 8 →
      formatResolution w h av = toString w ++ "x" ++ toString h ++ " (720p)" := by
  intro w h av hw hh
  rw [abs_le] at hw hh
  unfold formatResolution
  rw [if_pos]
  simp only [approx, Bool.and_eq_true, decide_eq_true_eq]
  constructor <;> constructor <;> omega

/-- C8 witness: the scenario input (1276, 722) with the HDTV AV pack (0x01)
formats as "1276x722 (720p)". -/
theorem C8_720p_tolerance_band_witness :
    |((1276 : Int)) - 1280| ≤ 32 ∧ |((722 : Int)) - 720| ≤ 8 ∧
    formatResolution 1276 722 1 = "1276x722 (720p)" :=
  ⟨by decide, by decide,
    C8_720p_tolerance_band 1276 722 1 (by decide) (by decide)⟩

/-! ## Theorems: bus-lock mutual exclusion (C1) -/

/-- C1: the state in which the mutex-path poller and the flag-path EEPROM
reader are both inside their bus critical sections is reachable: the EEPROM
reader takes the legacy flag, then the poller takes the free FreeRTOS mutex
(smbus_acquire never consults the flag) and proceeds.  Mutual exclusion
between the two lock implementations fails. -/
theorem C1_mutual_exclusion_violated :
    SysReachable { mutexHeld := true, flag := true, ppc := PollerPc.cs, epc := EEPc.cs } ∧
    ({ mutexHeld := true, flag := true, ppc := PollerPc.cs, epc := EEPc.cs } : SysState).ppc
      = PollerPc.cs ∧
    ({ mutexHeld := true, flag := true, ppc := PollerPc.cs, epc := EEPc.cs } : SysState).epc
      = EEPc.cs := by
  refine ⟨?_, rfl, rfl⟩
  exact SysReachable.step _ _
    (SysReachable.step _ _
      (SysReachable.step _ _ SysReachable.init (SysStep.eeTryLock _ rfl rfl))
      (SysStep.pollerTake _ rfl rfl))
    (SysStep.pollerSetFlag _ rfl)

/-! ## Theorems: configuration-memory read-once lifecycle (C5) -/

/-- Cache broadcasts carry only RAW / HDD / labeled frames. -/
theorem eeCacheFrames_no_err (st : EEState) :
    EEEvent.busAttempt ∉ XboxEEPROM.cacheFrames st ∧
    EEEvent.errFrame ∉ XboxEEPROM.cacheFrames st := by
  unfold XboxEEPROM.cacheFrames XboxEEPROM.sendBroadcastsFromCache
  by_cases h : st.haveRom <;> simp [h]

/-- A cache broadcast does not change the state once the Base64 cache agrees
with the cached ROM. -/
theorem eeSend_state_eq (st : EEState)
    (h : st.haveRom = true → st.rawB64 = base64Encode st.rom) :
    (XboxEEPROM.sendBroadcastsFromCache st).1 = st := by
  obtain ⟨hR, rom, hH, hex, b64, lb, rd⟩ := st
  unfold XboxEEPROM.sendBroadcastsFromCache
  cases hR with
  | false => simp
  | true =>
    have hrw : b64 = base64Encode rom := h rfl
    by_cases hb : b64.length = 0
    · simp only [Bool.not_true, Bool.false_eq_true, if_false, hb, if_true]
      rw [← hrw]
    · simp [hb]

/-- One broadcaster call after the read is latched: the snapshot is frozen and
the emitted events are one cache broadcast or nothing. -/
theorem eeStep_frozen (st : EEState) (op : EEOp) (h : eeInv st) :
    eeFrozen (EEOp.apply st op).1 st ∧
    ((EEOp.apply st op).2 = XboxEEPROM.cacheFrames st ∨ (EEOp.apply st op).2 = []) := by
  have hsend := eeSend_state_eq st h.2
  cases op with
  | bcast r now =>
    unfold EEOp.apply XboxEEPROM.broadcastOnce
    simp only [h.1, Bool.not_true, Bool.false_eq_true, if_false]
    rw [hsend]
    exact ⟨⟨rfl, rfl, rfl, rfl, rfl, rfl⟩, Or.inl rfl⟩
  | tick now =>
    unfold EEOp.apply XboxEEPROM.tick
    by_cases hrom : st.haveRom
    · by_cases hdue : now - st.lastBcast ≥ 10000
      · simp only [hrom, Bool.not_true, Bool.false_eq_true, if_false, hdue, if_true]
        rw [hsend]
        exact ⟨⟨rfl, rfl, rfl, rfl, rfl, rfl⟩, Or.inl rfl⟩
      · simp only [hrom, Bool.not_true, Bool.false_eq_true, if_false, hdue, if_false]
        exact ⟨⟨rfl, rfl, rfl, rfl, rfl, rfl⟩, Or.inr (by simp)⟩
    · simp only [hrom, Bool.not_false, if_true]
      exact ⟨⟨rfl, rfl, rfl, rfl, rfl, rfl⟩, Or.inr (by simp)⟩

/-- Frozen states have equal cache broadcasts. -/
theorem eeCacheFrames_congr (a b : EEState) (hf : eeFrozen a b) :
    XboxEEPROM.cacheFrames a = XboxEEPROM.cacheFrames b := by
  obtain ⟨h1, h2, h3, h4, h5, h6⟩ := hf
  unfold XboxEEPROM.cacheFrames XboxEEPROM.sendBroadcastsFromCache
  rw [h2, h3, h4, h5, h6]
  by_cases hrom : b.haveRom <;> by_cases hb : b.rawB64.length = 0 <;>
    simp [hrom, hb, h3, h4, h5, h6]

/-- The invariant transports along frozen snapshots. -/
theorem eeInv_congr (a b : EEState) (hf : eeFrozen a b) (h : eeInv b) : eeInv a := by
  obtain ⟨h1, h2, h3, h4, h5, h6⟩ := hf
  exact ⟨h1.trans h.1, fun hr => by rw [h6, h3]; exact h.2 (h2 ▸ hr)⟩

/-- Frozen-ness is transitive. -/
theorem eeFrozen_trans (a b c : EEState) (h1 : eeFrozen a b) (h2 : eeFrozen b c) :
    eeFrozen a c :=
  ⟨h1.1.trans h2.1, h1.2.1.trans h2.2.1, h1.2.2.1.trans h2.2.2.1,
   h1.2.2.2.1.trans h2.2.2.2.1, h1.2.2.2.2.1.trans h2.2.2.2.2.1,
   h1.2.2.2.2.2.trans h2.2.2.2.2.2⟩

/-- Any run after the read is latched keeps the snapshot frozen and emits only
cache-broadcast frames. -/
theorem eeRun_frozen (ops : List EEOp) : ∀ st : EEState, eeInv st →
    eeFrozen (eeRun st ops).1 st ∧
    ∀ e ∈ (eeRun st ops).2, e ∈ XboxEEPROM.cacheFrames st := by
  induction ops with
  | nil =>
    intro st _
    exact ⟨⟨rfl, rfl, rfl, rfl, rfl, rfl⟩, by simp [eeRun]⟩
  | cons op ops ih =>
    intro st h
    obtain ⟨hf1, hev1⟩ := eeStep_frozen st op h
    obtain ⟨hf2, hev2⟩ := ih (EEOp.apply st op).1 (eeInv_congr _ _ hf1 h)
    refine ⟨eeFrozen_trans _ _ _ hf2 hf1, ?_⟩
    intro e he
    simp only [eeRun, List.mem_append] at he
    rcases he with he | he
    · rcases hev1 with hev | hev
      · rw [hev] at he; exact he
      · rw [hev] at he; simp at he
    · have := hev2 e he
      rwa [eeCacheFrames_congr _ _ hf1] at this

/-- The first broadcastOnce establishes the latched-read invariant. -/
theorem eeFirst_inv (r : Option (List Nat)) (now : Nat) :
    eeInv (XboxEEPROM.broadcastOnce r now eeInit).1 := by
  cases r with
  | none => exact ⟨rfl, fun h => Bool.noConfusion h⟩
  | some rom =>
    have hsend := eeSend_state_eq
      { haveRom := true, rom := rom, haveHdd := (recoverHddLoop rom).isSome,
        hddHex := (recoverHddLoop rom).getD "", rawB64 := base64Encode rom,
        lastBcast := 0, readDone := true }
      (fun _ => rfl)
    have h1 : XboxEEPROM.broadcastOnce (some rom) now eeInit =
        (let r := XboxEEPROM.sendBroadcastsFromCache
          { haveRom := true, rom := rom, haveHdd := (recoverHddLoop rom).isSome,
            hddHex := (recoverHddLoop rom).getD "", rawB64 := base64Encode rom,
            lastBcast := 0, readDone := true };
         ({ r.1 with lastBcast := now }, EEEvent.busAttempt :: r.2)) := rfl
    rw [h1]
    simp only []
    rw [hsend]
    exact ⟨rfl, fun _ => rfl⟩

/-- C5: after the first broadcastOnce call completes — success or failure —
no later broadcastOnce or tick ever attempts the bus again; at most one
ERR=READ_FAIL frame is ever sent; the cached snapshot (ROM image, HDD key,
Base64 rendering, read-done latch) never changes; every later event is one of
the cached snapshot's frames; and on read failure the first call sends
exactly the bus attempt and the ERR frame and nothing is ever sent again. -/
theorem C5_config_memory_read_once :
    ∀ (r : Option (List Nat)) (now : Nat) (ops : List EEOp),
      EEEvent.busAttempt ∉ (eeRun (XboxEEPROM.broadcastOnce r now eeInit).1 ops).2 ∧
      ((XboxEEPROM.broadcastOnce r now eeInit).2 ++
        (eeRun (XboxEEPROM.broadcastOnce r now eeInit).1 ops).2).count
          EEEvent.errFrame ≤ 1 ∧
      eeFrozen (eeRun (XboxEEPROM.broadcastOnce r now eeInit).1 ops).1
        (XboxEEPROM.broadcastOnce r now eeInit).1 ∧
      (∀ e ∈ (eeRun (XboxEEPROM.broadcastOnce r now eeInit).1 ops).2,
        e ∈ XboxEEPROM.cacheFrames (XboxEEPROM.broadcastOnce r now eeInit).1) ∧
      (r = none →
        (XboxEEPROM.broadcastOnce r now eeInit).2 =
          [EEEvent.busAttempt, EEEvent.errFrame] ∧
        (eeRun (XboxEEPROM.broadcastOnce r now eeInit).1 ops).2 = []) := by
  intro r now ops
  obtain ⟨hf, hev⟩ := eeRun_frozen ops _ (eeFirst_inv r now)
  have hnoerr := eeCacheFrames_no_err (XboxEEPROM.broadcastOnce r now eeInit).1
  have hno_bus : EEEvent.busAttempt ∉
      (eeRun (XboxEEPROM.broadcastOnce r now eeInit).1 ops).2 :=
    fun hmem => hnoerr.1 (hev _ hmem)
  have hno_err : EEEvent.errFrame ∉
      (eeRun (XboxEEPROM.broadcastOnce r now eeInit).1 ops).2 :=
    fun hmem => hnoerr.2 (hev _ hmem)
  refine ⟨hno_bus, ?_, hf, hev, ?_⟩
  · rw [List.count_append, List.count_eq_zero.mpr hno_err]
    cases r with
    | none =>
      have hev1 : (XboxEEPROM.broadcastOnce none now eeInit).2 =
          [EEEvent.busAttempt, EEEvent.errFrame] := rfl
      rw [hev1]
      simp
    | some rom =>
      have hev1 : (XboxEEPROM.broadcastOnce (some rom) now eeInit).2 =
          EEEvent.busAttempt :: XboxEEPROM.cacheFrames
            { haveRom := true, rom := rom, haveHdd := (recoverHddLoop rom).isSome,
              hddHex := (recoverHddLoop rom).getD "", rawB64 := base64Encode rom,
              lastBcast := 0, readDone := true } := rfl
      rw [hev1]
      simp [List.count_cons,
        List.count_eq_zero.mpr (eeCacheFrames_no_err _).2]
  · rintro rfl
    have hframes : XboxEEPROM.cacheFrames
        (XboxEEPROM.broadcastOnce none now eeInit).1 = [] := rfl
    refine ⟨rfl, ?_⟩
    rw [List.eq_nil_iff_forall_not_mem]
    intro e hmem
    have := hev e hmem
    rw [hframes] at this
    exact (List.not_mem_nil e) this

/-- C5 witness: a failed first read at time 0 emits exactly the bus attempt
and the ERR frame, and a later tick plus a second broadcastOnce emit nothing. -/
theorem C5_config_memory_read_once_witness :
    (XboxEEPROM.broadcastOnce none 0 eeInit).2 =
      [EEEvent.busAttempt, EEEvent.errFrame] ∧
    (eeRun (XboxEEPROM.broadcastOnce none 0 eeInit).1
      [EEOp.tick 20000, EEOp.bcast none 5]).2 = [] ∧
    EEEvent.busAttempt ∉ (eeRun (XboxEEPROM.broadcastOnce none 0 eeInit).1
      [EEOp.tick 20000, EEOp.bcast none 5]).2 :=
  ⟨(C5_config_memory_read_once none 0 [EEOp.tick 20000, EEOp.bcast none 5]).2.2.2.2 rfl |>.1,
   (C5_config_memory_read_once none 0 [EEOp.tick 20000, EEOp.bcast none 5]).2.2.2.2 rfl |>.2,
   (C5_config_memory_read_once none 0 [EEOp.tick 20000, EEOp.bcast none 5]).1⟩

/-! ## Theorems: one-shot 1.6 probe (C10) -/

/-- The round-robin step never touches the detection caches or firstMs. -/
theorem pollRR_pres (o : PollOracle) (is16 : Bool) (st : PollState) :
    (XboxSMBusPoll.pollRR o is16 st).1.is16Known = st.is16Known ∧
    (XboxSMBusPoll.pollRR o is16 st).1.is16Cached = st.is16Cached ∧
    (XboxSMBusPoll.pollRR o is16 st).1.firstMs = st.firstMs := by
  unfold XboxSMBusPoll.pollRR
  rcases hstep : st.rrStep % 4 with _ | _ | _ | n <;>
    rcases hr : o.smcRead with _ | val <;>
    simp [hstep, hr] <;> split <;> simp

/-- One poll tick: either no probe happens and the detection caches are
unchanged, or the state had no detection yet, the probe runs at least 12000 ms
after begin, emits one event, and latches the result (even a failure). -/
theorem poll_probe_char (o : PollOracle) (now : Nat) (st : PollState) :
    ((XboxSMBusPoll.poll o now st).2.2 = [] ∧
      (XboxSMBusPoll.poll o now st).1.is16Known = st.is16Known ∧
      (XboxSMBusPoll.poll o now st).1.is16Cached = st.is16Cached) ∨
    (st.is16Known = false ∧
      (XboxSMBusPoll.poll o now st).2.2 = [PollEv.xcalProbe o.xcalProbeOk] ∧
      (XboxSMBusPoll.poll o now st).1.is16Known = true ∧
      (XboxSMBusPoll.poll o now st).1.is16Cached = o.xcalProbeOk ∧
      st.firstMs + 12000 ≤ now) := by
  unfold XboxSMBusPoll.poll
  by_cases h1 : now < st.nextAllowedMs
  · left; simp [h1]
  · by_cases h2 : o.lockOk
    · simp only [h1, if_false, h2, not_true_eq_false, Bool.false_eq_true]
      set okBus := if o.busFree1 = true then true else o.busFree2 with hok
      by_cases hp : (okBus && !st.is16Known && decide (now - st.firstMs ≥ 12000)) = true
      · right
        simp only [hp, if_true]
        have hknown : st.is16Known = false := by
          rcases Bool.and_eq_true .. |>.mp hp with ⟨hl, _⟩
          rcases Bool.and_eq_true .. |>.mp hl with ⟨_, hn⟩
          simpa using hn
        have htime : st.firstMs + 12000 ≤ now := by
          rcases Bool.and_eq_true .. |>.mp hp with ⟨_, ht⟩
          have := of_decide_eq_true ht
          omega
        have hRR := pollRR_pres o
          (if okBus = true then
            ({ st with is16Cached := o.xcalProbeOk, is16Known := true }).is16Cached
          else ({ st with is16Cached := o.xcalProbeOk, is16Known := true }).is16Cached)
          { st with is16Cached := o.xcalProbeOk, is16Known := true }
        refine ⟨hknown, ?_⟩
        by_cases hbus : okBus = true
        · have hRR := pollRR_pres o
            ({ st with is16Cached := o.xcalProbeOk, is16Known := true }).is16Cached
            { st with is16Cached := o.xcalProbeOk, is16Known := true }
          by_cases hfin : (XboxSMBusPoll.pollRR o
              ({ st with is16Cached := o.xcalProbeOk, is16Known := true }).is16Cached
              { st with is16Cached := o.xcalProbeOk, is16Known := true }).2 = true <;>
            simp [hbus, hfin, hRR.1, hRR.2.1, htime]
        · simp [hbus, htime]
      · left
        simp only [hp, if_false]
        have hcast : ∀ b : Bool, (if (okBus && !st.is16Known &&
            decide (now - st.firstMs ≥ 12000)) = true then b else st.is16Cached)
            = st.is16Cached := by
          intro b; rw [if_neg (by simp [hp])]
        by_cases hbus : okBus = true
        · have hRR := pollRR_pres o st.is16Cached st
          by_cases hfin : (XboxSMBusPoll.pollRR o st.is16Cached st).2 = true <;>
            simp [hbus, hfin, hRR.1, hRR.2.1]
        · simp [hbus]
    · left; simp [h1, h2]

/-- The round-robin step with the correction disabled never writes a corrected
board temperature: it leaves boardTemp alone or stores the raw byte. -/
theorem pollRR_board_uncorrected (o : PollOracle) (st : PollState) :
    (XboxSMBusPoll.pollRR o false st).1.status.boardTemp = st.status.boardTemp ∨
    ∃ val, o.smcRead = some val ∧ val < 120 ∧
      (XboxSMBusPoll.pollRR o false st).1.status.boardTemp = (val : Int) := by
  unfold XboxSMBusPoll.pollRR
  rcases hstep : st.rrStep % 4 with _ | _ | _ | n
  · rcases hr : o.smcRead with _ | val
    · left; simp [hstep, hr]
    · by_cases hv : val < 120 <;> left <;> simp [hstep, hr, hv]
  · rcases hr : o.smcRead with _ | val
    · left; simp [hstep, hr]
    · by_cases hv : val < 120
      · right
        exact ⟨val, rfl, hv, by simp [hstep, hr, hv]⟩
      · left; simp [hstep, hr, hv]
  · rcases hr : o.smcRead with _ | val
    · left; simp [hstep, hr]
    · by_cases hv : val ≤ 50 <;> left <;> simp [hstep, hr, hv]
  · left; simp [hstep]

/-- Once the probe result is latched, no run ever probes again and the cached
result never changes. -/
theorem pollRun_known : ∀ (inputs : List (PollOracle × Nat)) (st : PollState),
    st.is16Known = true →
    (pollRun st inputs).2 = [] ∧ (pollRun st inputs).1.is16Known = true ∧
    (pollRun st inputs).1.is16Cached = st.is16Cached := by
  intro inputs
  induction inputs with
  | nil => intro st h; exact ⟨rfl, h, rfl⟩
  | cons i rest ih =>
    intro st h
    rcases poll_probe_char i.1 i.2 st with ⟨he, hk, hc⟩ | ⟨hk, _⟩
    · obtain ⟨ih1, ih2, ih3⟩ := ih (XboxSMBusPoll.poll i.1 i.2 st).1 (hk.trans h)
      exact ⟨by simp [pollRun, he, ih1], ih2, ih3.trans hc⟩
    · simp [h] at hk

/-- Any run from any state emits at most one probe event; none once latched. -/
theorem pollRun_probe_bound : ∀ (inputs : List (PollOracle × Nat)) (st : PollState),
    ((pollRun st inputs).2).length ≤ (if st.is16Known then 0 else 1) := by
  intro inputs
  induction inputs with
  | nil => intro st; simp [pollRun]
  | cons i rest ih =>
    intro st
    rcases poll_probe_char i.1 i.2 st with ⟨he, hk, _⟩ | ⟨hk, he, hk', _⟩
    · have hb := ih (XboxSMBusPoll.poll i.1 i.2 st).1
      rw [hk] at hb
      simpa [pollRun, he] using hb
    · have hb := ih (XboxSMBusPoll.poll i.1 i.2 st).1
      rw [hk'] at hb
      simp only [if_true] at hb
      have : ((pollRun (XboxSMBusPoll.poll i.1 i.2 st).1 rest).2).length = 0 := by omega
      simp [pollRun, he, hk, this]

/-- C10: the Xcalibur detection probe fires at most once per process lifetime
and never once latched; it can only fire at least 12000 ms after begin() and
only when no detection is latched; a failed probe latches is16 = false; and in
a latched not-1.6 state the board-temperature step never applies the 1.6
correction — it stores the raw byte or leaves the cache alone. -/
theorem C10_xcal_detect_once :
    (∀ (st : PollState) (inputs : List (PollOracle × Nat)),
      ((pollRun st inputs).2).length ≤ (if st.is16Known then 0 else 1)) ∧
    (∀ (o : PollOracle) (now : Nat) (st : PollState),
      (XboxSMBusPoll.poll o now st).2.2 ≠ [] →
      st.firstMs + 12000 ≤ now ∧ st.is16Known = false) ∧
    (∀ (o : PollOracle) (now : Nat) (st : PollState),
      (XboxSMBusPoll.poll o now st).2.2 = [PollEv.xcalProbe false] →
      (XboxSMBusPoll.poll o now st).1.is16Known = true ∧
      (XboxSMBusPoll.poll o now st).1.is16Cached = false) ∧
    (∀ (st : PollState) (inputs : List (PollOracle × Nat)), st.is16Known = true →
      (pollRun st inputs).2 = [] ∧ (pollRun st inputs).1.is16Known = true ∧
      (pollRun st inputs).1.is16Cached = st.is16Cached) ∧
    (∀ (o : PollOracle) (now : Nat) (st : PollState),
      st.is16Known = true → st.is16Cached = false →
      (XboxSMBusPoll.poll o now st).1.status.boardTemp = st.status.boardTemp ∨
      ∃ val, o.smcRead = some val ∧ val < 120 ∧
        (XboxSMBusPoll.poll o now st).1.status.boardTemp = (val : Int)) := by
  refine ⟨fun st inputs => pollRun_probe_bound inputs st, ?_, ?_,
    fun st inputs h => pollRun_known inputs st h, ?_⟩
  · intro o now st hne
    rcases poll_probe_char o now st with ⟨he, _, _⟩ | ⟨hk, _, _, _, ht⟩
    · exact absurd he hne
    · exact ⟨ht, hk⟩
  · intro o now st hev
    rcases poll_probe_char o now st with ⟨he, _, _⟩ | ⟨_, he, hk', hc, _⟩
    · rw [he] at hev; cases hev
    · rw [he] at hev
      have : o.xcalProbeOk = false := by
        injection hev with h1 _
        injection h1
      exact ⟨hk', this ▸ hc⟩
  · intro o now st hk hc
    unfold XboxSMBusPoll.poll
    by_cases h1 : now < st.nextAllowedMs
    · left; simp [h1]
    · by_cases h2 : o.lockOk
      · simp only [h1, if_false, h2, not_true_eq_false, Bool.false_eq_true, hk,
          Bool.not_true, Bool.and_false, Bool.false_and, if_false]
        by_cases hbus : (if o.busFree1 = true then true else o.busFree2) = true
        · simp only [hc]
          rcases pollRR_board_uncorrected o st with h | ⟨val, hval, hlt, hbt⟩
          · left
            by_cases hfin : (XboxSMBusPoll.pollRR o false st).2 = true <;>
              simp [hbus, hfin, h]
          · right
            refine ⟨val, hval, hlt, ?_⟩
            by_cases hfin : (XboxSMBusPoll.pollRR o false st).2 = true <;>
              simp [hbus, hfin, hbt]
        · left; simp [hbus]
      · left; simp [h1, h2]

/-- C10 witness: from begin() at time 0, a tick at 15000 with a failing probe
emits exactly one probe event no earlier than 12000 ms after begin, latches
is16 = false, and a follow-up tick at 20000 emits no probe. -/
theorem C10_xcal_detect_once_witness :
    (XboxSMBusPoll.poll oProbeFail 15000 (XboxSMBusPoll.begin 0)).2.2 =
      [PollEv.xcalProbe false] ∧
    (XboxSMBusPoll.begin 0).firstMs + 12000 ≤ 15000 ∧
    (XboxSMBusPoll.poll oProbeFail 15000 (XboxSMBusPoll.begin 0)).1.is16Known = true ∧
    (XboxSMBusPoll.poll oProbeFail 15000 (XboxSMBusPoll.begin 0)).1.is16Cached = false ∧
    (pollRun (XboxSMBusPoll.poll oProbeFail 15000 (XboxSMBusPoll.begin 0)).1
      [(oProbeFail, 20000)]).2 = [] :=
  ⟨by decide,
   (C10_xcal_detect_once.2.1 oProbeFail 15000 (XboxSMBusPoll.begin 0) (by decide)).1,
   (C10_xcal_detect_once.2.2.1 oProbeFail 15000 (XboxSMBusPoll.begin 0) (by decide)).1,
   (C10_xcal_detect_once.2.2.1 oProbeFail 15000 (XboxSMBusPoll.begin 0) (by decide)).2,
   (C10_xcal_detect_once.2.2.2.1
     (XboxSMBusPoll.poll oProbeFail 15000 (XboxSMBusPoll.begin 0)).1
     [(oProbeFail, 20000)] (by decide)).1⟩

/-! ## Theorems: wire round-trips (C2) -/

/-- int32 serialization produces four bytes. -/
theorem int32ToLE_length (x : Int) : (int32ToLE x).length = 4 := rfl

/-- Reading the first 32-bit field ignores what follows. -/
theorem leU32At_append (x : Int) (rest : List Nat) :
    leU32At (int32ToLE x ++ rest) 0 = leU32At (int32ToLE x) 0 := by
  unfold leU32At int32ToLE
  simp [List.getD_append]

/-- Reading past a 4-byte block addresses the remainder. -/
theorem int32At_skip (x : Int) (rest : List Nat) (i : Nat) :
    int32At (int32ToLE x ++ rest) (4 + i) = int32At rest i := by
  have h : ∀ j, (int32ToLE x ++ rest).getD (4 + j) 0 = rest.getD j 0 := by
    intro j
    rw [List.getD_append_right (int32ToLE x) rest 0 (4 + j)
      (by rw [int32ToLE_length]; omega), int32ToLE_length]
    congr 1
    omega
  unfold int32At leU32At
  simp only [show (4:Nat) + i + 1 = 4 + (i + 1) from by omega,
    show (4:Nat) + i + 2 = 4 + (i + 2) from by omega,
    show (4:Nat) + i + 3 = 4 + (i + 3) from by omega, h]

/-- A 32-bit field round-trips through the little-endian wire form. -/
theorem int32At_int32ToLE (x : Int) (rest : List Nat)
    (h1 : -2147483648 ≤ x) (h2 : x < 2147483648) :
    int32At (int32ToLE x ++ rest) 0 = x := by
  rw [show int32At (int32ToLE x ++ rest) 0 =
      (if leU32At (int32ToLE x ++ rest) 0 < 2147483648 then
        ((leU32At (int32ToLE x ++ rest) 0 : Nat) : Int)
      else ((leU32At (int32ToLE x ++ rest) 0 : Nat) : Int) - 4294967296) from rfl]
  rw [leU32At_append]
  have hu : leU32At (int32ToLE x) 0 = (x % 4294967296).toNat := by
    unfold leU32At int32ToLE
    simp only [List.getD_cons_zero, List.getD_cons_succ]
    omega
  rw [hu]
  omega

/-- takeWhile passes over a prefix every element of which satisfies it. -/
theorem takeWhile_append_all {α : Type} (p : α → Bool) :
    ∀ (l : List α), (∀ x ∈ l, p x = true) →
      ∀ l' : List α, (l ++ l').takeWhile p = l ++ l'.takeWhile p := by
  intro l
  induction l with
  | nil => intro _ l'; simp
  | cons a rest ih =>
    intro h l'
    simp [List.takeWhile_cons, h a (by simp),
      ih (fun x hx => h x (by simp [hx])) l']

/-- takeWhile yields nothing on a failing replicate block. -/
theorem takeWhile_replicate_fail {α : Type} (p : α → Bool) (a : α) (h : p a = false) :
    ∀ k, (List.replicate k a).takeWhile p = [] := by
  intro k
  cases k with
  | zero => rfl
  | succ n => simp [List.replicate_succ, List.takeWhile_cons, h]

/-- The zero-padded 31-char C string field round-trips. -/
theorem cString_roundtrip (app : List Nat) (h31 : app.length ≤ 31)
    (hnz : ∀ b ∈ app, b ≠ 0) :
    cString (app ++ List.replicate (32 - app.length) 0) = app := by
  unfold cString
  rw [takeWhile_append_all _ app (fun x hx => by simpa using hnz x hx),
    takeWhile_replicate_fail _ _ (by simp)]
  simp [List.take_of_length_le, h31]

/-- Skip a 4-byte block at any concrete offset. -/
theorem int32At_skip' (x : Int) (rest : List Nat) (i j : Nat) (h : i = 4 + j) :
    int32At (int32ToLE x ++ rest) i = int32At rest j := by
  subst h
  exact int32At_skip x rest j

/-- The Core frame round-trips: every cache field sent by udp_stat.cpp is
reproduced exactly by the receiver's Core branch. -/
theorem core_roundtrip (c : XboxStatus)
    (hf1 : -2147483648 ≤ c.fanSpeed) (hf2 : c.fanSpeed < 2147483648)
    (hc1 : -2147483648 ≤ c.cpuTemp) (hc2 : c.cpuTemp < 2147483648)
    (ha1 : -2147483648 ≤ c.ambientTemp) (ha2 : c.ambientTemp < 2147483648)
    (happ : c.currentApp.length ≤ 31) (hnz : ∀ b ∈ c.currentApp, b ≠ 0) :
    (parseCore (encodeCore c) initRecv).fanSpeed = c.fanSpeed ∧
    (parseCore (encodeCore c) initRecv).cpuTemp = c.cpuTemp ∧
    (parseCore (encodeCore c) initRecv).ambientTemp = c.ambientTemp ∧
    (parseCore (encodeCore c) initRecv).currentApp = c.currentApp := by
  have htake : c.currentApp.take 31 = c.currentApp := List.take_of_length_le happ
  have hlen : (encodeCore c).length = 44 := by
    unfold encodeCore int32ToLE
    simp [htake]
    omega
  unfold parseCore
  rw [if_pos hlen]
  unfold encodeCore
  rw [htake]
  simp only [List.append_assoc]
  refine ⟨int32At_int32ToLE _ _ hf1 hf2, ?_, ?_, ?_⟩
  · rw [int32At_skip' _ _ 4 0 (by norm_num)]
    exact int32At_int32ToLE _ _ hc1 hc2
  · rw [int32At_skip' _ _ 8 4 (by norm_num), int32At_skip' _ _ 4 0 (by norm_num)]
    exact int32At_int32ToLE _ _ ha1 ha2
  · have hdrop : ∀ (x : Int) (l : List Nat), (int32ToLE x ++ l).drop 4 = l := by
      intro x l
      rfl
    have hd : (int32ToLE c.fanSpeed ++ (int32ToLE c.cpuTemp ++ (int32ToLE c.ambientTemp ++
        (c.currentApp ++ List.replicate (32 - c.currentApp.length) 0)))).drop 12 =
        c.currentApp ++ List.replicate (32 - c.currentApp.length) 0 := by
      rw [show (12 : Nat) = 4 + (4 + 4) from rfl, ← List.drop_drop, ← List.drop_drop]
      rw [hdrop, hdrop, hdrop]
    rw [hd]
    have hlen2 : (c.currentApp ++ List.replicate (32 - c.currentApp.length) 0).length = 32 := by
      simp
      omega
    rw [List.take_of_length_le (le_of_eq hlen2)]
    exact cString_roundtrip c.currentApp happ hnz

/-- The Expansion frame round-trips: the seven int32 fields of the
spec-modelled 28-byte layout are reproduced exactly by parseExpansionBinary. -/
theorem expansion_roundtrip (p : ExtPacket)
    (h1 : -2147483648 ≤ p.trayState ∧ p.trayState < 2147483648)
    (h2 : -2147483648 ≤ p.avPackState ∧ p.avPackState < 2147483648)
    (h3 : -2147483648 ≤ p.picVer ∧ p.picVer < 2147483648)
    (h4 : -2147483648 ≤ p.xboxVer ∧ p.xboxVer < 2147483648)
    (h5 : -2147483648 ≤ p.videoWidth ∧ p.videoWidth < 2147483648)
    (h6 : -2147483648 ≤ p.videoHeight ∧ p.videoHeight < 2147483648)
    (h7 : -2147483648 ≤ p.encoderType ∧ p.encoderType < 2147483648) :
    (parseExpansionBinary (encodeExpansion p) initRecv).trayState = p.trayState ∧
    (parseExpansionBinary (encodeExpansion p) initRecv).avPackState = p.avPackState ∧
    (parseExpansionBinary (encodeExpansion p) initRecv).picVersion = p.picVer ∧
    (parseExpansionBinary (encodeExpansion p) initRecv).xboxVersion = p.xboxVer ∧
    (parseExpansionBinary (encodeExpansion p) initRecv).videoWidth = p.videoWidth ∧
    (parseExpansionBinary (encodeExpansion p) initRecv).videoHeight = p.videoHeight ∧
    (parseExpansionBinary (encodeExpansion p) initRecv).encoderType = p.encoderType := by
  have hlen : (encodeExpansion p).length = 28 := by
    unfold encodeExpansion int32ToLE
    simp
  unfold parseExpansionBinary
  rw [if_pos hlen]
  unfold encodeExpansion
  simp only [List.append_assoc]
  refine ⟨int32At_int32ToLE _ _ h1.1 h1.2, ?_, ?_, ?_, ?_, ?_, ?_⟩
  · rw [int32At_skip' _ _ 4 0 (by norm_num)]
    exact int32At_int32ToLE _ _ h2.1 h2.2
  · rw [int32At_skip' _ _ 8 4 (by norm_num), int32At_skip' _ _ 4 0 (by norm_num)]
    exact int32At_int32ToLE _ _ h3.1 h3.2
  · rw [int32At_skip' _ _ 12 8 (by norm_num), int32At_skip' _ _ 8 4 (by norm_num),
      int32At_skip' _ _ 4 0 (by norm_num)]
    exact int32At_int32ToLE _ _ h4.1 h4.2
  · rw [int32At_skip' _ _ 16 12 (by norm_num), int32At_skip' _ _ 12 8 (by norm_num),
      int32At_skip' _ _ 8 4 (by norm_num), int32At_skip' _ _ 4 0 (by norm_num)]
    exact int32At_int32ToLE _ _ h5.1 h5.2
  · rw [int32At_skip' _ _ 20 16 (by norm_num), int32At_skip' _ _ 16 12 (by norm_num),
      int32At_skip' _ _ 12 8 (by norm_num), int32At_skip' _ _ 8 4 (by norm_num),
      int32At_skip' _ _ 4 0 (by norm_num)]
    exact int32At_int32ToLE _ _ h6.1 h6.2
  · rw [int32At_skip' _ _ 24 20 (by norm_num), int32At_skip' _ _ 20 16 (by norm_num),
      int32At_skip' _ _ 16 12 (by norm_num), int32At_skip' _ _ 12 8 (by norm_num),
      int32At_skip' _ _ 8 4 (by norm_num), int32At_skip' _ _ 4 0 (by norm_num)]
    exact int32At_int32ToLE _ _ h7.1 h7.2

/-- b64val inverts the alphabet. -/
theorem b64val_inv : ∀ v, v < 64 → b64val (b64Chars.getD v 'A') = (v : Int) := by
  decide

/-- Reassembling the four 6-bit groups of a 24-bit value recovers it. -/
theorem b64group_eq (n : Nat) (hn : n < 16777216) :
    ((n / 262144) <<< 18) ||| ((n / 4096 % 64) <<< 12) |||
      ((n / 64 % 64) <<< 6) ||| (n % 64) = n := by
  apply Nat.eq_of_testBit_eq
  intro i
  have e18 : n / 262144 = n >>> 18 := by rw [Nat.shiftRight_eq_div_pow]
  have e12 : n / 4096 = n >>> 12 := by rw [Nat.shiftRight_eq_div_pow]
  have e6 : n / 64 = n >>> 6 := by rw [Nat.shiftRight_eq_div_pow]
  rw [e18, e12, e6]
  simp only [Nat.testBit_lor, Nat.testBit_shiftLeft,
    show (64 : Nat) = 2 ^ 6 from rfl, Nat.testBit_mod_two_pow, Nat.testBit_shiftRight]
  by_cases h24 : 24 ≤ i
  · have hhigh : n.testBit i = false :=
      Nat.testBit_lt_two_pow
        (lt_of_lt_of_le hn (Nat.pow_le_pow_right (show 0 < 2 by norm_num) h24))
    have h1 : n.testBit (18 + (i - 18)) = false := by
      rw [show 18 + (i - 18) = i from by omega]; exact hhigh
    have h2 : ¬ (i - 12 < 6) := by omega
    have h3 : ¬ (i - 6 < 6) := by omega
    have h4 : ¬ (i < 6) := by omega
    simp [h1, h2, h3, h4, hhigh]
  · by_cases h18 : 18 ≤ i
    · have h1 : 18 + (i - 18) = i := by omega
      have h2 : ¬ (i - 12 < 6) := by omega
      have h3 : ¬ (i - 6 < 6) := by omega
      have h4 : ¬ (i < 6) := by omega
      simp [h1, h2, h3, h4, h18]
    · by_cases h12 : 12 ≤ i
      · have h1 : ¬ (18 ≤ i) := h18
        have h2 : i - 12 < 6 := by omega
        have h2' : 12 + (i - 12) = i := by omega
        have h3 : ¬ (i - 6 < 6) := by omega
        have h4 : ¬ (i < 6) := by omega
        simp [h1, h2, h2', h3, h4, h12]
      · by_cases h6 : 6 ≤ i
        · have h1 : ¬ (18 ≤ i) := h18
          have h1' : ¬ (12 ≤ i) := h12
          have h3 : i - 6 < 6 := by omega
          have h3' : 6 + (i - 6) = i := by omega
          have h4 : ¬ (i < 6) := by omega
          simp [h1, h1', h3, h3', h4, h6]
        · have h1 : ¬ (18 ≤ i) := h18
          have h1' : ¬ (12 ≤ i) := h12
          have h1'' : ¬ (6 ≤ i) := h6
          have h4 : i < 6 := by omega
          simp [h1, h1', h1'', h4]

/-- Extracting the three bytes of a 24-bit value. -/
theorem b64group_extract (n : Nat) (hn : n < 16777216) :
    (n >>> 16) &&& 255 = n / 65536 ∧ (n >>> 8) &&& 255 = n / 256 % 256 ∧
      n &&& 255 = n % 256 := by
  rw [Nat.shiftRight_eq_div_pow, Nat.shiftRight_eq_div_pow,
    show (255 : Nat) = 2 ^ 8 - 1 from rfl, Nat.and_pow_two_sub_one_eq_mod,
    Nat.and_pow_two_sub_one_eq_mod, Nat.and_pow_two_sub_one_eq_mod]
  norm_num
  omega

/-! ## Base64 round-trip machinery (C2) -/

theorem int_land63 (v : Nat) : (Int.land (v : Int) 63).toNat = v &&& 63 := rfl

theorem and63_eq (v : Nat) (hv : v < 64) : v &&& 63 = v := by
  have := Nat.and_pow_two_sub_one_eq_mod v 6
  norm_num at this
  rw [this]
  omega

theorem b64_step_val (ch : Char) (v : Nat) (hv : b64val ch = (v : Int))
    (rest : List Char) (q : List Int) (cap : Nat) (out : List Nat)
    (hq : q.length + 1 ≠ 4) :
    base64DecodeLoop (ch :: rest) q cap out =
      base64DecodeLoop rest (q ++ [(v : Int)]) cap out := by
  conv_lhs => unfold base64DecodeLoop
  rw [hv]
  rw [if_neg (by omega)]
  rw [if_neg (by simpa using hq)]

theorem b64_step_pad (ch : Char) (hv : b64val ch = -2)
    (rest : List Char) (q : List Int) (cap : Nat) (out : List Nat)
    (hq : q.length + 1 ≠ 4) :
    base64DecodeLoop (ch :: rest) q cap out =
      base64DecodeLoop rest (q ++ [(-2 : Int)]) cap out := by
  conv_lhs => unfold base64DecodeLoop
  rw [hv]
  rw [if_neg (by omega)]
  rw [if_neg (by simpa using hq)]

theorem b64_consume_group (n : Nat) (hn : n < 16777216) (rest : List Char)
    (cap : Nat) (out : List Nat) (hcap : out.length + 3 ≤ cap) :
    base64DecodeLoop (b64Chars.getD (n / 262144) 'A' :: b64Chars.getD (n / 4096 % 64) 'A' ::
      b64Chars.getD (n / 64 % 64) 'A' :: b64Chars.getD (n % 64) 'A' :: rest) [] cap out =
    base64DecodeLoop rest [] cap (out ++ [n / 65536, n / 256 % 256, n % 256]) := by
  rw [b64_step_val _ _ (b64val_inv (n / 262144) (by omega)) _ _ _ _ (by simp),
    b64_step_val _ _ (b64val_inv (n / 4096 % 64) (by omega)) _ _ _ _ (by simp),
    b64_step_val _ _ (b64val_inv (n / 64 % 64) (by omega)) _ _ _ _ (by simp)]
  conv_lhs => unfold base64DecodeLoop
  rw [b64val_inv (n % 64) (by omega)]
  rw [if_neg (by omega)]
  simp only [List.nil_append, List.cons_append, List.length_cons, List.length_nil,
    List.getD_cons_zero, List.getD_cons_succ, if_true]
  have hp2 : (if ((n / 64 % 64 : Nat) : Int) = -2 then (1 : Nat) else 0) = 0 := by
    rw [if_neg]; omega
  have hp3 : (if ((n % 64 : Nat) : Int) = -2 then (1 : Nat) else 0) = 0 := by
    rw [if_neg]; omega
  simp only [hp2, hp3, Nat.add_zero]
  have hneg3 : (if ((n / 64 % 64 : Nat) : Int) < 0 then (0 : Int)
      else ((n / 64 % 64 : Nat) : Int)) = ((n / 64 % 64 : Nat) : Int) := by
    rw [if_neg]; omega
  have hneg4 : (if ((n % 64 : Nat) : Int) < 0 then (0 : Int)
      else ((n % 64 : Nat) : Int)) = ((n % 64 : Nat) : Int) := by
    rw [if_neg]; omega
  simp only [hneg3, hneg4, int_land63]
  rw [and63_eq _ (by omega), and63_eq _ (by omega), and63_eq _ (by omega),
    and63_eq _ (by omega)]
  rw [b64group_eq n hn]
  obtain ⟨e1, e2, e3⟩ := b64group_extract n hn
  simp only [e1, e2, e3]
  have ha1 : (if (0 : Nat) < 3 ∧ out.length < cap then out ++ [n / 65536] else out)
      = out ++ [n / 65536] := if_pos ⟨by norm_num, by omega⟩
  simp only [ha1]
  have ha2 : (if (0 : Nat) < 2 ∧ (out ++ [n / 65536]).length < cap then
      (out ++ [n / 65536]) ++ [n / 256 % 256] else (out ++ [n / 65536]))
      = (out ++ [n / 65536]) ++ [n / 256 % 256] :=
    if_pos ⟨by norm_num, by simp; omega⟩
  simp only [ha2]
  have ha3 : (if (0 : Nat) < 1 ∧ ((out ++ [n / 65536]) ++ [n / 256 % 256]).length < cap then
      ((out ++ [n / 65536]) ++ [n / 256 % 256]) ++ [n % 256]
      else ((out ++ [n / 65536]) ++ [n / 256 % 256]))
      = ((out ++ [n / 65536]) ++ [n / 256 % 256]) ++ [n % 256] :=
    if_pos ⟨by norm_num, by simp; omega⟩
  simp only [ha3]
  rw [if_neg (by norm_num)]
  simp [List.append_assoc]

theorem b64val_eq_char : b64val '=' = -2 := by decide

theorem b64_consume_tail1 (a : Nat) (ha : a < 256) (cap : Nat) (out : List Nat)
    (hcap : out.length + 1 ≤ cap) :
    base64DecodeLoop (base64EncodeGroups [a]) [] cap out = out ++ [a] := by
  show base64DecodeLoop (b64Chars.getD (a * 65536 / 262144) 'A' ::
    b64Chars.getD (a * 65536 / 4096 % 64) 'A' :: '=' :: '=' :: []) [] cap out = out ++ [a]
  rw [b64_step_val _ _ (b64val_inv (a * 65536 / 262144) (by omega)) _ _ _ _ (by simp),
    b64_step_val _ _ (b64val_inv (a * 65536 / 4096 % 64) (by omega)) _ _ _ _ (by simp),
    b64_step_pad _ b64val_eq_char _ _ _ _ (by simp)]
  conv_lhs => unfold base64DecodeLoop
  rw [b64val_eq_char]
  rw [if_neg (by norm_num)]
  simp only [List.nil_append, List.cons_append, List.length_cons, List.length_nil,
    List.getD_cons_zero, List.getD_cons_succ, if_true]
  have h0 : (Int.land (0 : Int) 63).toNat = 0 := rfl
  have hneg : (if (-2 : Int) < 0 then (0 : Int) else (-2 : Int)) = 0 := by norm_num
  simp only [if_pos rfl, hneg, h0, int_land63]
  rw [and63_eq _ (by omega), and63_eq _ (by omega)]
  have hg := b64group_eq (a * 65536) (by omega)
  rw [show a * 65536 / 64 % 64 = 0 from by omega,
    show a * 65536 % 64 = 0 from by omega] at hg
  rw [hg]
  obtain ⟨e1, _, _⟩ := b64group_extract (a * 65536) (by omega)
  simp only [e1]
  have ha1 : (if (1 : Nat) + 1 < 3 ∧ out.length < cap then out ++ [a * 65536 / 65536]
      else out) = out ++ [a * 65536 / 65536] := if_pos ⟨by norm_num, by omega⟩
  simp only [ha1]
  rw [if_pos (by norm_num), if_neg (by norm_num), if_neg (by norm_num)]
  rw [show a * 65536 / 65536 = a from by omega]

theorem b64_consume_tail2 (a b : Nat) (ha : a < 256) (hb : b < 256) (cap : Nat)
    (out : List Nat) (hcap : out.length + 2 ≤ cap) :
    base64DecodeLoop (base64EncodeGroups [a, b]) [] cap out = out ++ [a, b] := by
  show base64DecodeLoop (b64Chars.getD ((a * 65536 + b * 256) / 262144) 'A' ::
    b64Chars.getD ((a * 65536 + b * 256) / 4096 % 64) 'A' ::
    b64Chars.getD ((a * 65536 + b * 256) / 64 % 64) 'A' :: '=' :: []) [] cap out = out ++ [a, b]
  rw [b64_step_val _ _ (b64val_inv ((a * 65536 + b * 256) / 262144) (by omega)) _ _ _ _ (by simp),
    b64_step_val _ _ (b64val_inv ((a * 65536 + b * 256) / 4096 % 64) (by omega)) _ _ _ _ (by simp),
    b64_step_val _ _ (b64val_inv ((a * 65536 + b * 256) / 64 % 64) (by omega)) _ _ _ _ (by simp)]
  conv_lhs => unfold base64DecodeLoop
  rw [b64val_eq_char]
  rw [if_neg (by norm_num)]
  simp only [List.nil_append, List.cons_append, List.length_cons, List.length_nil,
    List.getD_cons_zero, List.getD_cons_succ, if_true]
  have hp2 : (if (((a * 65536 + b * 256) / 64 % 64 : Nat) : Int) = -2 then (1 : Nat) else 0)
      = 0 := by rw [if_neg]; omega
  have hneg3 : (if (((a * 65536 + b * 256) / 64 % 64 : Nat) : Int) < 0 then (0 : Int)
      else (((a * 65536 + b * 256) / 64 % 64 : Nat) : Int))
      = (((a * 65536 + b * 256) / 64 % 64 : Nat) : Int) := by rw [if_neg]; omega
  have hneg4 : (if (-2 : Int) < 0 then (0 : Int) else (-2 : Int)) = 0 := by norm_num
  have h0 : (Int.land (0 : Int) 63).toNat = 0 := rfl
  simp only [hp2, if_pos rfl, hneg3, hneg4, h0, int_land63, Nat.zero_add]
  rw [and63_eq _ (by omega), and63_eq _ (by omega), and63_eq _ (by omega)]
  have hg := b64group_eq (a * 65536 + b * 256) (by omega)
  rw [show (a * 65536 + b * 256) % 64 = 0 from by omega] at hg
  rw [hg]
  obtain ⟨e1, e2, _⟩ := b64group_extract (a * 65536 + b * 256) (by omega)
  simp only [e1, e2]
  have ha1 : (if (0 : Nat) + 1 < 3 ∧ out.length < cap then
      out ++ [(a * 65536 + b * 256) / 65536] else out)
      = out ++ [(a * 65536 + b * 256) / 65536] := if_pos ⟨by norm_num, by omega⟩
  simp only [ha1]
  have ha2 : (if (0 : Nat) + 1 < 2 ∧ (out ++ [(a * 65536 + b * 256) / 65536]).length < cap then
      (out ++ [(a * 65536 + b * 256) / 65536]) ++ [(a * 65536 + b * 256) / 256 % 256]
      else (out ++ [(a * 65536 + b * 256) / 65536]))
      = (out ++ [(a * 65536 + b * 256) / 65536]) ++ [(a * 65536 + b * 256) / 256 % 256] :=
    if_pos ⟨by norm_num, by simp; omega⟩
  simp only [ha2]
  rw [if_pos (by norm_num), if_neg (by norm_num)]
  rw [show (a * 65536 + b * 256) / 65536 = a from by omega,
    show (a * 65536 + b * 256) / 256 % 256 = b from by omega]
  simp

theorem b64_decode_groups : ∀ (bs : List Nat), (∀ x ∈ bs, x < 256) →
    ∀ (cap : Nat) (out : List Nat), out.length + bs.length ≤ cap →
    base64DecodeLoop (base64EncodeGroups bs) [] cap out = out ++ bs
  | [] => by
    intro _ cap out _
    simp [base64EncodeGroups, base64DecodeLoop]
  | [a] => by
    intro h cap out hcap
    exact b64_consume_tail1 a (h a (by simp)) cap out (by simpa using hcap)
  | [a, b] => by
    intro h cap out hcap
    exact b64_consume_tail2 a b (h a (by simp)) (h b (by simp)) cap out (by simpa using hcap)
  | a :: b :: c :: rest => by
    intro h cap out hcap
    have ha := h a (by simp)
    have hb := h b (by simp)
    have hc := h c (by simp)
    show base64DecodeLoop (b64Chars.getD ((a * 65536 + b * 256 + c) / 262144) 'A' ::
      b64Chars.getD ((a * 65536 + b * 256 + c) / 4096 % 64) 'A' ::
      b64Chars.getD ((a * 65536 + b * 256 + c) / 64 % 64) 'A' ::
      b64Chars.getD ((a * 65536 + b * 256 + c) % 64) 'A' ::
      base64EncodeGroups rest) [] cap out = out ++ a :: b :: c :: rest
    rw [b64_consume_group (a * 65536 + b * 256 + c) (by omega) _ cap out
      (by simp at hcap ⊢; omega)]
    rw [show (a * 65536 + b * 256 + c) / 65536 = a from by omega,
      show (a * 65536 + b * 256 + c) / 256 % 256 = b from by omega,
      show (a * 65536 + b * 256 + c) % 256 = c from by omega]
    rw [b64_decode_groups rest (fun x hx => h x (by simp [hx])) cap (out ++ [a, b, c])
      (by simp at hcap ⊢; omega)]
    simp


/-- Decoding an encoded byte list under sufficient capacity returns it. -/
theorem b64_roundtrip (bs : List Nat) (h : ∀ x ∈ bs, x < 256) (cap : Nat)
    (hcap : bs.length ≤ cap) : base64_decode (base64Encode bs) cap = bs := by
  have hd := b64_decode_groups bs h cap [] (by simpa using hcap)
  simpa [base64_decode, base64Encode] using hd

/-- An EE:RAW= line decodes back to the encoded ROM bytes. -/
theorem parseEE_raw_roundtrip (bs : List Nat) (h : ∀ x ∈ bs, x < 256)
    (hlen : bs.length ≤ 256) (s : XboxStatusRecv) :
    parseEE_line ("EE:RAW=" ++ base64Encode bs) s
      = { s with eeRaw := bs, eeRawLen := bs.length } := by
  have hdec : base64DecodeLoop (base64EncodeGroups bs) [] 256 [] = bs := by
    simpa using b64_decode_groups bs h 256 [] (by simpa using hlen)
  have hdata : (("EE:RAW=" ++ base64Encode bs) : String).data
      = 'E' :: 'E' :: ':' :: 'R' :: 'A' :: 'W' :: '=' :: base64EncodeGroups bs := rfl
  have htake : ('E' :: 'E' :: ':' :: 'R' :: 'A' :: 'W' :: '=' :: base64EncodeGroups bs).take 7
      = "EE:RAW=".data := rfl
  have hdrop : ('E' :: 'E' :: ':' :: 'R' :: 'A' :: 'W' :: '=' :: base64EncodeGroups bs).drop 7
      = base64EncodeGroups bs := rfl
  simp only [parseEE_line, hdata, htake, hdrop]
  rw [if_pos trivial, hdec]

/-- toHexUpper on a cons. -/
theorem toHexUpper_data_cons (a : Nat) (t : List Nat) :
    (toHexUpper (a :: t)).data
      = nybToHex (a >>> 4) :: nybToHex a :: (toHexUpper t).data := rfl

/-- toHexUpper yields two characters per byte. -/
theorem toHexUpper_length (src : List Nat) :
    (toHexUpper src).data.length = 2 * src.length := by
  induction src with
  | nil => rfl
  | cons a t ih =>
    rw [toHexUpper_data_cons]
    simp only [List.length_cons, ih]
    omega

/-- An EE:HDD= line stores the hex key string unchanged. -/
theorem parseEE_hdd_roundtrip (hb : List Nat) (hlen : hb.length = 16)
    (s : XboxStatusRecv) :
    parseEE_line ("EE:HDD=" ++ toHexUpper hb) s
      = { s with eeHddHex := toHexUpper hb } := by
  have hdata : (("EE:HDD=" ++ toHexUpper hb) : String).data
      = 'E' :: 'E' :: ':' :: 'H' :: 'D' :: 'D' :: '=' :: (toHexUpper hb).data := rfl
  have htake : ('E' :: 'E' :: ':' :: 'H' :: 'D' :: 'D' :: '=' :: (toHexUpper hb).data).take 7
      = "EE:HDD=".data := rfl
  have hdrop : ('E' :: 'E' :: ':' :: 'H' :: 'D' :: 'D' :: '=' :: (toHexUpper hb).data).drop 7
      = (toHexUpper hb).data := rfl
  have ht32 : ((toHexUpper hb).data).take 32 = (toHexUpper hb).data :=
    List.take_of_length_le (by rw [toHexUpper_length]; omega)
  simp only [parseEE_line, hdata, htake, hdrop]
  rw [if_neg (by decide), if_pos trivial, ht32]

/-- splitSep never returns an empty token list. -/
theorem splitSep_ne_nil (d : Char) : ∀ l : List Char, splitSep d l ≠ []
  | [] => by simp [splitSep]
  | c :: rest => by
    unfold splitSep
    cases hsp : splitSep d rest with
    | nil => dsimp only; split <;> simp
    | cons t ts => dsimp only; split <;> simp

/-- splitSep on a delimiter-free list is the singleton. -/
theorem splitSep_no_delim (d : Char) : ∀ l : List Char, (∀ c ∈ l, c ≠ d) →
    splitSep d l = [l]
  | [] => fun _ => rfl
  | c :: rest => fun h => by
    have ih := splitSep_no_delim d rest (fun x hx => h x (List.mem_cons_of_mem _ hx))
    unfold splitSep
    rw [ih]
    simp [h c (List.mem_cons_self c rest)]

/-- splitSep peels a delimiter-free segment before a delimiter. -/
theorem splitSep_append (d : Char) : ∀ (seg rest : List Char),
    (∀ c ∈ seg, c ≠ d) → splitSep d (seg ++ d :: rest) = seg :: splitSep d rest
  | [], rest => fun _ => by
    show splitSep d (d :: rest) = [] :: splitSep d rest
    conv_lhs => unfold splitSep
    cases hsp : splitSep d rest with
    | nil => exact absurd hsp (splitSep_ne_nil d rest)
    | cons t ts => simp
  | c :: seg, rest => fun h => by
    have ih := splitSep_append d seg rest (fun x hx => h x (List.mem_cons_of_mem _ hx))
    show splitSep d (c :: (seg ++ d :: rest)) = (c :: seg) :: splitSep d rest
    conv_lhs => unfold splitSep
    rw [ih]
    simp [h c (List.mem_cons_self c seg)]

/-- dropWhile is the identity when the predicate fails everywhere. -/
theorem dropWhile_all_false {α : Type} (p : α → Bool) :
    ∀ l : List α, (∀ c ∈ l, p c = false) → l.dropWhile p = l
  | [], _ => rfl
  | a :: t, h => by
    rw [List.dropWhile_cons, h a (List.mem_cons_self a t)]
    simp

/-- trim_inplace is the identity on whitespace-free strings. -/
theorem trimChars_eq_self (l : List Char)
    (h : ∀ c ∈ l, (c == ' ' || c == '\t' || c == '\r' || c == '\n') = false) :
    trimChars l = l := by
  unfold trimChars
  rw [dropWhile_all_false _ l (fun c hc => by
    have h4 := h c hc
    simp only [Bool.or_eq_false_iff] at h4
    simp [h4.1.1.1, h4.1.1.2])]
  rw [dropWhile_all_false _ l.reverse (fun c hc => h c (List.mem_reverse.mp hc))]
  exact List.reverse_reverse l


/-- getD stays in the list when the default is in the list. -/
theorem getD_mem_of_mem {α : Type} (l : List α) (d : α) (hd : d ∈ l) (n : Nat) :
    l.getD n d ∈ l := by
  by_cases h : n < l.length
  · rw [List.getD_eq_getElem l d h]
    exact List.getElem_mem h
  · rw [List.getD_eq_default l d (Nat.le_of_not_lt h)]
    exact hd

/-- nybToHex lands in the uppercase hex alphabet. -/
theorem nybToHex_mem (v : Nat) : nybToHex v ∈ ("0123456789ABCDEF".data) := by
  unfold nybToHex
  have h15 : v &&& 15 ≤ 15 := Nat.and_le_right
  dsimp only
  generalize hw : v &&& 15 = w at h15 ⊢
  interval_cases w <;> decide

/-- macToStr written out: six hex pairs joined by colons. -/
theorem macToStr_eq (m : List Nat) :
    macToStr m = [nybToHex (m.getD 0 0 >>> 4), nybToHex (m.getD 0 0), ':',
      nybToHex (m.getD 1 0 >>> 4), nybToHex (m.getD 1 0), ':',
      nybToHex (m.getD 2 0 >>> 4), nybToHex (m.getD 2 0), ':',
      nybToHex (m.getD 3 0 >>> 4), nybToHex (m.getD 3 0), ':',
      nybToHex (m.getD 4 0 >>> 4), nybToHex (m.getD 4 0), ':',
      nybToHex (m.getD 5 0 >>> 4), nybToHex (m.getD 5 0)] := rfl

/-- A MAC renders as exactly 17 characters. -/
theorem macToStr_length (m : List Nat) : (macToStr m).length = 17 := by
  rw [macToStr_eq]
  rfl

/-- macToStr characters are hex digits or colons. -/
theorem macToStr_mem (m : List Nat) :
    ∀ c ∈ macToStr m, c ∈ ("0123456789ABCDEF:".data) := by
  intro c hc
  have hsub : ∀ x ∈ ("0123456789ABCDEF".data), x ∈ ("0123456789ABCDEF:".data) := by
    decide
  rw [macToStr_eq] at hc
  simp only [List.mem_cons, List.not_mem_nil, or_false] at hc
  rcases hc with rfl|rfl|rfl|rfl|rfl|rfl|rfl|rfl|rfl|rfl|rfl|rfl|rfl|rfl|rfl|rfl|rfl <;>
    first
      | exact hsub _ (nybToHex_mem _)
      | decide

/-- toHexUpper characters are uppercase hex digits. -/
theorem toHexUpper_mem (src : List Nat) :
    ∀ c ∈ (toHexUpper src).data, c ∈ ("0123456789ABCDEF".data) := by
  induction src with
  | nil => intro c hc; simp [toHexUpper] at hc
  | cons a t ih =>
    intro c hc
    rw [toHexUpper_data_cons] at hc
    rcases List.mem_cons.mp hc with rfl|hc2
    · exact nybToHex_mem _
    rcases List.mem_cons.mp hc2 with rfl|hc3
    · exact nybToHex_mem _
    · exact ih c hc3

/-- cleanSerial keeps only uppercase letters and digits. -/
theorem cleanSerial_mem (src : List Nat) :
    ∀ c ∈ cleanSerial src, c ∈ ("ABCDEFGHIJKLMNOPQRSTUVWXYZ0123456789".data) := by
  unfold cleanSerial
  generalize (List.takeWhile (fun b => !(b == 0 || b == 255)) src) = l
  induction l with
  | nil => intro c hc; simp at hc
  | cons b t ih =>
    intro c hc
    rw [List.foldr_cons] at hc
    dsimp only at hc
    generalize hb : (if 97 ≤ b ∧ b ≤ 122 then b - 32 else b) = w at hc
    by_cases hg : (65 ≤ w ∧ w ≤ 90) ∨ (48 ≤ w ∧ w ≤ 57)
    · rw [if_pos hg] at hc
      rcases List.mem_cons.mp hc with rfl|hc2
      · rcases hg with ⟨h1, h2⟩ | ⟨h1, h2⟩ <;> interval_cases w <;> decide
      · exact ih c hc2
    · rw [if_neg hg] at hc
      exact ih c hc

/-- cleanSerial never lengthens its input. -/
theorem cleanSerial_length (src : List Nat) :
    (cleanSerial src).length ≤ src.length := by
  unfold cleanSerial
  have haux : ∀ l : List Nat,
      (l.foldr (fun b acc =>
        let c := if 97 ≤ b ∧ b ≤ 122 then b - 32 else b
        if (65 ≤ c ∧ c ≤ 90) ∨ (48 ≤ c ∧ c ≤ 57) then Char.ofNat c :: acc
        else acc) []).length ≤ l.length := by
    intro l
    induction l with
    | nil => simp
    | cons b t ih =>
      rw [List.foldr_cons]
      dsimp only at ih ⊢
      generalize (if 97 ≤ b ∧ b ≤ 122 then b - 32 else b) = w
      by_cases hg : (65 ≤ w ∧ w ≤ 90) ∨ (48 ≤ w ∧ w ≤ 57)
      · rw [if_pos hg]
        simp only [List.length_cons]
        omega
      · rw [if_neg hg]
        simp only [List.length_cons]
        omega
  exact le_trans (haux _) (List.takeWhile_sublist _).length_le

/-- Encoded base64 characters are alphabet characters or padding. -/
theorem b64_groups_mem : ∀ bs : List Nat, ∀ c ∈ base64EncodeGroups bs,
    c ∈ b64Chars ∨ c = '='
  | [] => by intro c hc; simp [base64EncodeGroups] at hc
  | [a] => by
    intro c hc
    have hA : ('A' : Char) ∈ b64Chars := by decide
    simp only [base64EncodeGroups] at hc
    simp only [List.mem_cons, List.not_mem_nil, or_false] at hc
    rcases hc with rfl|rfl|rfl|rfl
    · exact Or.inl (getD_mem_of_mem _ _ hA _)
    · exact Or.inl (getD_mem_of_mem _ _ hA _)
    · exact Or.inr rfl
    · exact Or.inr rfl
  | [a, b] => by
    intro c hc
    have hA : ('A' : Char) ∈ b64Chars := by decide
    simp only [base64EncodeGroups] at hc
    simp only [List.mem_cons, List.not_mem_nil, or_false] at hc
    rcases hc with rfl|rfl|rfl|rfl
    · exact Or.inl (getD_mem_of_mem _ _ hA _)
    · exact Or.inl (getD_mem_of_mem _ _ hA _)
    · exact Or.inl (getD_mem_of_mem _ _ hA _)
    · exact Or.inr rfl
  | a :: b :: c' :: rest => by
    intro c hc
    have hA : ('A' : Char) ∈ b64Chars := by decide
    rw [show base64EncodeGroups (a :: b :: c' :: rest)
        = b64Chars.getD ((a * 65536 + b * 256 + c') / 262144) 'A' ::
          b64Chars.getD ((a * 65536 + b * 256 + c') / 4096 % 64) 'A' ::
          b64Chars.getD ((a * 65536 + b * 256 + c') / 64 % 64) 'A' ::
          b64Chars.getD ((a * 65536 + b * 256 + c') % 64) 'A' ::
          base64EncodeGroups rest from rfl] at hc
    simp only [List.mem_cons] at hc
    rcases hc with rfl|rfl|rfl|rfl|hc
    · exact Or.inl (getD_mem_of_mem _ _ hA _)
    · exact Or.inl (getD_mem_of_mem _ _ hA _)
    · exact Or.inl (getD_mem_of_mem _ _ hA _)
    · exact Or.inl (getD_mem_of_mem _ _ hA _)
    · exact b64_groups_mem rest c hc

/-- Encoded base64 length: four characters per three-byte group. -/
theorem b64_groups_length : ∀ bs : List Nat,
    (base64EncodeGroups bs).length = 4 * ((bs.length + 2) / 3)
  | [] => rfl
  | [a] => by simp [base64EncodeGroups]
  | [a, b] => by simp [base64EncodeGroups]
  | a :: b :: c :: rest => by
    rw [show base64EncodeGroups (a :: b :: c :: rest)
        = b64Chars.getD ((a * 65536 + b * 256 + c) / 262144) 'A' ::
          b64Chars.getD ((a * 65536 + b * 256 + c) / 4096 % 64) 'A' ::
          b64Chars.getD ((a * 65536 + b * 256 + c) / 64 % 64) 'A' ::
          b64Chars.getD ((a * 65536 + b * 256 + c) % 64) 'A' ::
          base64EncodeGroups rest from rfl]
    simp only [List.length_cons, b64_groups_length rest]
    omega

/-- The region name is short and free of separators and whitespace. -/
theorem regionName_facts (r : Nat) :
    (regionName r).data.length ≤ 11 ∧
      ∀ c ∈ (regionName r).data,
        ((c == ' ' || c == '\t' || c == '\r' || c == '\n') = false ∧ c ≠ '|') := by
  unfold regionName
  split_ifs <;> exact ⟨by decide, by decide⟩


/-- A labeled line starts with the six characters EE:SN=. -/
theorem sn_prefix_take6 (r : List Char) :
    ("EE:SN=".data ++ r).take 6 = "EE:SN=".data := rfl

/-- A labeled line never passes the EE:RAW= prefix test. -/
theorem sn_prefix_ne_raw (r : List Char) :
    ¬ (("EE:SN=".data ++ r).take 7 = "EE:RAW=".data) := by
  intro hco
  have h2 := congrArg (fun t => List.take 6 t) hco
  simp only [List.take_take] at h2
  rw [show min 6 7 = 6 from rfl, sn_prefix_take6] at h2
  exact absurd h2 (by decide)

/-- A labeled line never passes the EE:HDD= prefix test. -/
theorem sn_prefix_ne_hdd (r : List Char) :
    ¬ (("EE:SN=".data ++ r).take 7 = "EE:HDD=".data) := by
  intro hco
  have h2 := congrArg (fun t => List.take 6 t) hco
  simp only [List.take_take] at h2
  rw [show min 6 7 = 6 from rfl, sn_prefix_take6] at h2
  exact absurd h2 (by decide)

/-- Dropping the EE prefix of a labeled line. -/
theorem sn_prefix_drop3 (r : List Char) :
    ("EE:SN=".data ++ r).drop 3 = 'S' :: 'N' :: '=' :: r := rfl

/-- strtok over the labeled line yields the five labeled tokens. -/
theorem strtok_labeled (sn mac reg hd raw : List Char)
    (hsn : ∀ c ∈ sn, c ≠ '|') (hmac : ∀ c ∈ mac, c ≠ '|')
    (hreg : ∀ c ∈ reg, c ≠ '|') (hhd : ∀ c ∈ hd, c ≠ '|')
    (hraw : ∀ c ∈ raw, c ≠ '|') :
    strtokSplit '|'
      ('S' :: 'N' :: '=' :: (sn ++ ("|MAC=".data ++ (mac ++ ("|REG=".data ++
        (reg ++ ("|HDD=".data ++ (hd ++ ("|RAW=".data ++ raw)))))))))
      = [('S' :: 'N' :: '=' :: sn), ('M' :: 'A' :: 'C' :: '=' :: mac),
         ('R' :: 'E' :: 'G' :: '=' :: reg), ('H' :: 'D' :: 'D' :: '=' :: hd),
         ('R' :: 'A' :: 'W' :: '=' :: raw)] := by
  have h1 : ∀ c ∈ ('S' :: 'N' :: '=' :: sn), c ≠ '|' := by
    intro c hc
    simp only [List.mem_cons] at hc
    rcases hc with rfl|rfl|rfl|hc
    · decide
    · decide
    · decide
    · exact hsn c hc
  have h2 : ∀ c ∈ ('M' :: 'A' :: 'C' :: '=' :: mac), c ≠ '|' := by
    intro c hc
    simp only [List.mem_cons] at hc
    rcases hc with rfl|rfl|rfl|rfl|hc
    · decide
    · decide
    · decide
    · decide
    · exact hmac c hc
  have h3 : ∀ c ∈ ('R' :: 'E' :: 'G' :: '=' :: reg), c ≠ '|' := by
    intro c hc
    simp only [List.mem_cons] at hc
    rcases hc with rfl|rfl|rfl|rfl|hc
    · decide
    · decide
    · decide
    · decide
    · exact hreg c hc
  have h4 : ∀ c ∈ ('H' :: 'D' :: 'D' :: '=' :: hd), c ≠ '|' := by
    intro c hc
    simp only [List.mem_cons] at hc
    rcases hc with rfl|rfl|rfl|rfl|hc
    · decide
    · decide
    · decide
    · decide
    · exact hhd c hc
  have h5 : ∀ c ∈ ('R' :: 'A' :: 'W' :: '=' :: raw), c ≠ '|' := by
    intro c hc
    simp only [List.mem_cons] at hc
    rcases hc with rfl|rfl|rfl|rfl|hc
    · decide
    · decide
    · decide
    · decide
    · exact hraw c hc
  show strtokSplit '|'
      (('S' :: 'N' :: '=' :: sn) ++ '|' :: (('M' :: 'A' :: 'C' :: '=' :: mac) ++
        '|' :: (('R' :: 'E' :: 'G' :: '=' :: reg) ++ '|' ::
          (('H' :: 'D' :: 'D' :: '=' :: hd) ++ '|' ::
            ('R' :: 'A' :: 'W' :: '=' :: raw))))) = _
  unfold strtokSplit
  rw [splitSep_append _ _ _ h1, splitSep_append _ _ _ h2, splitSep_append _ _ _ h3,
      splitSep_append _ _ _ h4, splitSep_no_delim _ _ h5]
  rfl


/-- parseEE_line on a well-formed labeled line assigns all five fields. -/
theorem parseEE_labeled_generic (s : XboxStatusRecv) (sn mac reg hd raw : List Char)
    (hsn_ws : ∀ c ∈ sn, (c == ' ' || c == '\t' || c == '\r' || c == '\n') = false)
    (hsn_pipe : ∀ c ∈ sn, c ≠ '|') (hsn_len : sn.length ≤ 12)
    (hmac_ws : ∀ c ∈ mac, (c == ' ' || c == '\t' || c == '\r' || c == '\n') = false)
    (hmac_pipe : ∀ c ∈ mac, c ≠ '|') (hmac_len : mac.length ≤ 17)
    (hreg_ws : ∀ c ∈ reg, (c == ' ' || c == '\t' || c == '\r' || c == '\n') = false)
    (hreg_pipe : ∀ c ∈ reg, c ≠ '|') (hreg_len : reg.length ≤ 11)
    (hhd_ws : ∀ c ∈ hd, (c == ' ' || c == '\t' || c == '\r' || c == '\n') = false)
    (hhd_pipe : ∀ c ∈ hd, c ≠ '|') (hhd_len : hd.length ≤ 32)
    (hraw_ws : ∀ c ∈ raw, (c == ' ' || c == '\t' || c == '\r' || c == '\n') = false)
    (hraw_pipe : ∀ c ∈ raw, c ≠ '|') (hraw_len : raw.length ≤ 925) :
    parseEE_line (String.mk ("EE:SN=".data ++ sn ++ "|MAC=".data ++ mac ++
        "|REG=".data ++ reg ++ "|HDD=".data ++ hd ++ "|RAW=".data ++ raw)) s
      = { s with
          eeSerial := String.mk sn, eeMac := String.mk mac,
          eeRegion := String.mk reg, eeHddHex := String.mk hd,
          eeRaw := base64DecodeLoop raw [] 256 [],
          eeRawLen := (base64DecodeLoop raw [] 256 []).length } := by
  have e1 : ∀ s' : XboxStatusRecv, applyEEToken s' ('S' :: 'N' :: '=' :: sn)
      = { s' with eeSerial := String.mk sn } := by
    intro s'
    have hsp : splitAtFirstEq ('S' :: 'N' :: '=' :: sn) = some (['S', 'N'], sn) := by
      unfold splitAtFirstEq
      rw [if_pos (show (('S' :: 'N' :: '=' :: sn).contains '=') = true from rfl)]
      rfl
    simp only [applyEEToken, hsp]
    rw [if_pos (show ((trimChars ['S', 'N']).map Char.toUpper = "SN".data)
      from by decide)]
    rw [trimChars_eq_self sn hsn_ws, List.take_of_length_le hsn_len]
  have e2 : ∀ s' : XboxStatusRecv, applyEEToken s' ('M' :: 'A' :: 'C' :: '=' :: mac)
      = { s' with eeMac := String.mk mac } := by
    intro s'
    have hsp : splitAtFirstEq ('M' :: 'A' :: 'C' :: '=' :: mac)
        = some (['M', 'A', 'C'], mac) := by
      unfold splitAtFirstEq
      rw [if_pos (show (('M' :: 'A' :: 'C' :: '=' :: mac).contains '=') = true from rfl)]
      rfl
    simp only [applyEEToken, hsp]
    rw [if_neg (show ¬((trimChars ['M', 'A', 'C']).map Char.toUpper = "SN".data)
      from by decide)]
    rw [if_pos (show ((trimChars ['M', 'A', 'C']).map Char.toUpper = "MAC".data)
      from by decide)]
    rw [trimChars_eq_self mac hmac_ws, List.take_of_length_le hmac_len]
  have e3 : ∀ s' : XboxStatusRecv, applyEEToken s' ('R' :: 'E' :: 'G' :: '=' :: reg)
      = { s' with eeRegion := String.mk reg } := by
    intro s'
    have hsp : splitAtFirstEq ('R' :: 'E' :: 'G' :: '=' :: reg)
        = some (['R', 'E', 'G'], reg) := by
      unfold splitAtFirstEq
      rw [if_pos (show (('R' :: 'E' :: 'G' :: '=' :: reg).contains '=') = true from rfl)]
      rfl
    simp only [applyEEToken, hsp]
    rw [if_neg (show ¬((trimChars ['R', 'E', 'G']).map Char.toUpper = "SN".data)
      from by decide)]
    rw [if_neg (show ¬((trimChars ['R', 'E', 'G']).map Char.toUpper = "MAC".data)
      from by decide)]
    rw [if_pos (show ((trimChars ['R', 'E', 'G']).map Char.toUpper = "REG".data)
      from by decide)]
    rw [trimChars_eq_self reg hreg_ws, List.take_of_length_le hreg_len]
  have e4 : ∀ s' : XboxStatusRecv, applyEEToken s' ('H' :: 'D' :: 'D' :: '=' :: hd)
      = { s' with eeHddHex := String.mk hd } := by
    intro s'
    have hsp : splitAtFirstEq ('H' :: 'D' :: 'D' :: '=' :: hd)
        = some (['H', 'D', 'D'], hd) := by
      unfold splitAtFirstEq
      rw [if_pos (show (('H' :: 'D' :: 'D' :: '=' :: hd).contains '=') = true from rfl)]
      rfl
    simp only [applyEEToken, hsp]
    rw [if_neg (show ¬((trimChars ['H', 'D', 'D']).map Char.toUpper = "SN".data)
      from by decide)]
    rw [if_neg (show ¬((trimChars ['H', 'D', 'D']).map Char.toUpper = "MAC".data)
      from by decide)]
    rw [if_neg (show ¬((trimChars ['H', 'D', 'D']).map Char.toUpper = "REG".data)
      from by decide)]
    rw [if_pos (show ((trimChars ['H', 'D', 'D']).map Char.toUpper = "HDD".data)
      from by decide)]
    rw [trimChars_eq_self hd hhd_ws, List.take_of_length_le hhd_len]
  have e5 : ∀ s' : XboxStatusRecv, applyEEToken s' ('R' :: 'A' :: 'W' :: '=' :: raw)
      = { s' with
          eeRaw := base64DecodeLoop raw [] 256 [],
          eeRawLen := (base64DecodeLoop raw [] 256 []).length } := by
    intro s'
    have hsp : splitAtFirstEq ('R' :: 'A' :: 'W' :: '=' :: raw)
        = some (['R', 'A', 'W'], raw) := by
      unfold splitAtFirstEq
      rw [if_pos (show (('R' :: 'A' :: 'W' :: '=' :: raw).contains '=') = true from rfl)]
      rfl
    simp only [applyEEToken, hsp]
    rw [if_neg (show ¬((trimChars ['R', 'A', 'W']).map Char.toUpper = "SN".data)
      from by decide)]
    rw [if_neg (show ¬((trimChars ['R', 'A', 'W']).map Char.toUpper = "MAC".data)
      from by decide)]
    rw [if_neg (show ¬((trimChars ['R', 'A', 'W']).map Char.toUpper = "REG".data)
      from by decide)]
    rw [if_neg (show ¬((trimChars ['R', 'A', 'W']).map Char.toUpper = "HDD".data)
      from by decide)]
    rw [if_pos (show ((trimChars ['R', 'A', 'W']).map Char.toUpper = "RAW".data)
      from by decide)]
    rw [trimChars_eq_self raw hraw_ws]
  simp only [parseEE_line, List.append_assoc]
  rw [if_neg (sn_prefix_ne_raw _), if_neg (sn_prefix_ne_hdd _),
      if_pos (sn_prefix_take6 _)]
  have hL : ("EE:SN=".data ++ (sn ++ ("|MAC=".data ++ (mac ++ ("|REG=".data ++
      (reg ++ ("|HDD=".data ++ (hd ++ ("|RAW=".data ++ raw))))))))).length ≤ 1023 := by
    simp only [List.length_append]
    rw [show ("EE:SN=".data).length = 6 from rfl, show ("|MAC=".data).length = 5 from rfl,
        show ("|REG=".data).length = 5 from rfl, show ("|HDD=".data).length = 5 from rfl,
        show ("|RAW=".data).length = 5 from rfl]
    omega
  rw [min_eq_left hL]
  rw [List.take_of_length_le (le_of_eq (List.length_drop 3 _))]
  rw [sn_prefix_drop3]
  rw [strtok_labeled sn mac reg hd raw hsn_pipe hmac_pipe hreg_pipe hhd_pipe hraw_pipe]
  simp only [List.foldl_cons, List.foldl_nil]
  rw [e1, e2, e3, e4, e5]


/-- The publisher's labeled EE line parses back to the published field values. -/
theorem parseEE_labeled_roundtrip (rom devKey : List Nat) (s : XboxStatusRecv)
    (hrom : ∀ x ∈ rom, x < 256) (hromlen : rom.length = 256)
    (hkey : devKey.length = 16) :
    parseEE_line (eeLabeledLine rom (toHexUpper devKey) (base64Encode rom)) s
      = { s with
          eeSerial := String.mk (cleanSerial ((rom.drop 0x34).take 12)),
          eeMac := String.mk (macToStr ((rom.drop 0x40).take 6)),
          eeRegion := regionName (rom.getD 0x58 0),
          eeHddHex := toHexUpper devKey,
          eeRaw := rom, eeRawLen := 256 } := by
  have hok36 : ∀ c ∈ ("ABCDEFGHIJKLMNOPQRSTUVWXYZ0123456789".data),
      ((c == ' ' || c == '\t' || c == '\r' || c == '\n') = false ∧ c ≠ '|') := by
    decide
  have hhex17 : ∀ c ∈ ("0123456789ABCDEF:".data),
      ((c == ' ' || c == '\t' || c == '\r' || c == '\n') = false ∧ c ≠ '|') := by
    decide
  have hhex16 : ∀ c ∈ ("0123456789ABCDEF".data),
      ((c == ' ' || c == '\t' || c == '\r' || c == '\n') = false ∧ c ≠ '|') := by
    decide
  have hb64c : ∀ c ∈ b64Chars,
      ((c == ' ' || c == '\t' || c == '\r' || c == '\n') = false ∧ c ≠ '|') := by
    decide
  have hrawfacts : ∀ c ∈ base64EncodeGroups rom,
      ((c == ' ' || c == '\t' || c == '\r' || c == '\n') = false ∧ c ≠ '|') := by
    intro c hc
    rcases b64_groups_mem rom c hc with h|rfl
    · exact hb64c c h
    · exact ⟨by decide, by decide⟩
  have hreg := regionName_facts (rom.getD 0x58 0)
  have hdec : base64DecodeLoop (base64EncodeGroups rom) [] 256 [] = rom := by
    simpa using b64_decode_groups rom hrom 256 [] (by simp [hromlen])
  cases hR : regionName (rom.getD 0x58 0) with
  | mk regd =>
  rw [hR] at hreg
  have hline : eeLabeledLine rom (toHexUpper devKey) (base64Encode rom)
      = String.mk ("EE:SN=".data ++ cleanSerial ((rom.drop 0x34).take 12) ++
          "|MAC=".data ++ macToStr ((rom.drop 0x40).take 6) ++
          "|REG=".data ++ regd ++
          "|HDD=".data ++ (toHexUpper devKey).data ++
          "|RAW=".data ++ base64EncodeGroups rom) := by
    unfold eeLabeledLine
    rw [hR]
    rfl
  rw [hline]
  rw [parseEE_labeled_generic s _ _ _ _ _
      (fun c hc => (hok36 c (cleanSerial_mem _ c hc)).1)
      (fun c hc => (hok36 c (cleanSerial_mem _ c hc)).2)
      (le_trans (cleanSerial_length _)
        (by rw [List.length_take]; exact min_le_left _ _))
      (fun c hc => (hhex17 c (macToStr_mem _ c hc)).1)
      (fun c hc => (hhex17 c (macToStr_mem _ c hc)).2)
      (le_of_eq (macToStr_length _))
      (fun c hc => (hreg.2 c hc).1)
      (fun c hc => (hreg.2 c hc).2)
      hreg.1
      (fun c hc => (hhex16 c (toHexUpper_mem _ c hc)).1)
      (fun c hc => (hhex16 c (toHexUpper_mem _ c hc)).2)
      (by rw [toHexUpper_length, hkey])
      (fun c hc => (hrawfacts c hc).1)
      (fun c hc => (hrawfacts c hc).2)
      (by rw [b64_groups_length, hromlen]; omega)]
  rw [hdec, hromlen]


/-- C2: For every field of every frame variant (Core, Expansion, RAW, HDD,
labeled), encoding the field into its wire frame by the publisher and decoding
it by the receiver reproduces the original value exactly; the Expansion frame
is a 28-byte record of seven 32-bit fields in the order trayState,
avPackState, picVersion, consoleRevision, videoWidth, videoHeight,
encoderAddress, and the publisher's layout matches the layout the receiver
decodes. -/
theorem C2_frame_roundtrips (c : XboxStatus) (p : ExtPacket)
    (rom devKey : List Nat) (s : XboxStatusRecv)
    (hf1 : -2147483648 ≤ c.fanSpeed) (hf2 : c.fanSpeed < 2147483648)
    (hc1 : -2147483648 ≤ c.cpuTemp) (hc2 : c.cpuTemp < 2147483648)
    (ha1 : -2147483648 ≤ c.ambientTemp) (ha2 : c.ambientTemp < 2147483648)
    (happ : c.currentApp.length ≤ 31) (hnz : ∀ b ∈ c.currentApp, b ≠ 0)
    (h1 : -2147483648 ≤ p.trayState ∧ p.trayState < 2147483648)
    (h2 : -2147483648 ≤ p.avPackState ∧ p.avPackState < 2147483648)
    (h3 : -2147483648 ≤ p.picVer ∧ p.picVer < 2147483648)
    (h4 : -2147483648 ≤ p.xboxVer ∧ p.xboxVer < 2147483648)
    (h5 : -2147483648 ≤ p.videoWidth ∧ p.videoWidth < 2147483648)
    (h6 : -2147483648 ≤ p.videoHeight ∧ p.videoHeight < 2147483648)
    (h7 : -2147483648 ≤ p.encoderType ∧ p.encoderType < 2147483648)
    (hrom : ∀ x ∈ rom, x < 256) (hromlen : rom.length = 256)
    (hkey : devKey.length = 16) :
    ((parseCore (encodeCore c) initRecv).fanSpeed = c.fanSpeed ∧
     (parseCore (encodeCore c) initRecv).cpuTemp = c.cpuTemp ∧
     (parseCore (encodeCore c) initRecv).ambientTemp = c.ambientTemp ∧
     (parseCore (encodeCore c) initRecv).currentApp = c.currentApp) ∧
    ((encodeExpansion p).length = 28 ∧
     (parseExpansionBinary (encodeExpansion p) initRecv).trayState = p.trayState ∧
     (parseExpansionBinary (encodeExpansion p) initRecv).avPackState = p.avPackState ∧
     (parseExpansionBinary (encodeExpansion p) initRecv).picVersion = p.picVer ∧
     (parseExpansionBinary (encodeExpansion p) initRecv).xboxVersion = p.xboxVer ∧
     (parseExpansionBinary (encodeExpansion p) initRecv).videoWidth = p.videoWidth ∧
     (parseExpansionBinary (encodeExpansion p) initRecv).videoHeight = p.videoHeight ∧
     (parseExpansionBinary (encodeExpansion p) initRecv).encoderType = p.encoderType) ∧
    (parseEE_line ("EE:RAW=" ++ base64Encode rom) s
      = { s with eeRaw := rom, eeRawLen := rom.length }) ∧
    (parseEE_line ("EE:HDD=" ++ toHexUpper devKey) s
      = { s with eeHddHex := toHexUpper devKey }) ∧
    (parseEE_line (eeLabeledLine rom (toHexUpper devKey) (base64Encode rom)) s
      = { s with
          eeSerial := String.mk (cleanSerial ((rom.drop 0x34).take 12)),
          eeMac := String.mk (macToStr ((rom.drop 0x40).take 6)),
          eeRegion := regionName (rom.getD 0x58 0),
          eeHddHex := toHexUpper devKey,
          eeRaw := rom, eeRawLen := 256 }) := by
  refine ⟨core_roundtrip c hf1 hf2 hc1 hc2 ha1 ha2 happ hnz,
    ⟨?_, expansion_roundtrip p h1 h2 h3 h4 h5 h6 h7⟩,
    parseEE_raw_roundtrip rom hrom (le_of_eq hromlen) s,
    parseEE_hdd_roundtrip devKey hkey s,
    parseEE_labeled_roundtrip rom devKey s hrom hromlen hkey⟩
  unfold encodeExpansion int32ToLE
  simp

set_option maxRecDepth 4000 in
/-- C2 witness: the round-trip at a concrete cache value, packet, 256-byte ROM
image and 16-byte device key. -/
theorem C2_frame_roundtrips_witness :
    (∀ x ∈ List.range 256, x < 256) ∧
    (parseCore (encodeCore ⟨42, 50, 40, [84]⟩) initRecv).fanSpeed = 42 := by
  refine ⟨by decide, ?_⟩
  exact (C2_frame_roundtrips ⟨42, 50, 40, [84]⟩ ⟨1, 2, 3, 4, 640, 480, 69⟩
    (List.range 256) (List.range 16) initRecv
    (by decide) (by decide) (by decide) (by decide) (by decide) (by decide)
    (by decide) (by decide)
    (by decide) (by decide) (by decide) (by decide) (by decide) (by decide)
    (by decide)
    (by decide) (by decide) (by decide)).1.1

end TypeD
